import Mathlib

/-! World-space key blending (`BlendToWorldSpace`) of `src/TempPivot.cpp`.

A shallow embedding of the numeric core of the tween tool: the remap-and-clamp of
the slider value, the per-component linear blend of translation and scale, the
quaternion interpolation `slerpQuaternion`, the triple loop of
`worldMatrixToLocalTransform` and the per-key value computed by `tween`.

Conventions of the embedding.

* `float` and `double` are read as one ordered field `α` with exact arithmetic
  (`ℚ` when a definition is evaluated, `ℝ` when trigonometry is needed); rounding,
  infinities and NaN are outside the model.
* The three `<cmath>` functions used by `slerpQuaternion` (`acos`, `sin`, `sqrt`)
  are arguments of the definition; the theorems instantiate them with
  `Real.arccos`, `Real.sin` and `Real.sqrt`.
* The host SDK class `MTransformationMatrix` (decomposition of a 4x4 matrix into
  translation, rotation and scale, and the recomposition) is not part of the
  repository; it is the parameter `Sdk`.
* `getWorldMatrixAt` and `getParentInverseMatrixAt` work on the DAG path of a node, a
  list of the attribute samples of its nodes; the host composition of a local matrix
  and the host `MMatrix::inverse` are arguments, instantiated in the theorems with
  `eulerAsMatrix` and with the matrix inverse of Mathlib.
* The second part embeds the temporary pivot (`TempPivot`): the relative matrices, and
  `toggle`, `create` and `cleanUp` as functions on the members of the class, with the
  answers of the host as the argument `Host` and its calls recorded in the state.
-/

namespace BlendToWorldSpace

variable {α : Type} [LinearOrderedField α]

/-! ## Data model -/

/-- The host's `MVector`: three components. -/
structure MVector (α : Type) where
  x : α
  y : α
  z : α
deriving DecidableEq, Repr

/-- The host's `MQuaternion`: four components `x y z w`. -/
structure MQuaternion (α : Type) where
  x : α
  y : α
  z : α
  w : α
deriving DecidableEq, Repr

/-- The host's `MMatrix`: a 4x4 matrix, entry `(i, j)` read as `m(i, j)`. -/
abbrev MMatrix (α : Type) := Matrix (Fin 4) (Fin 4) α

/-- The host's `MSpace::Space` values that the source passes. -/
inductive MSpace where
  | kTransform
  | kWorld
deriving DecidableEq, Repr

/-- `MVector::operator+`. -/
def MVector.add (a b : MVector α) : MVector α := ⟨a.x + b.x, a.y + b.y, a.z + b.z⟩

/-- `MVector::operator-`. -/
def MVector.sub (a b : MVector α) : MVector α := ⟨a.x - b.x, a.y - b.y, a.z - b.z⟩

/-- `MVector::operator*` by a scalar. -/
def MVector.scale (a : MVector α) (t : α) : MVector α := ⟨a.x * t, a.y * t, a.z * t⟩

/-- The squared length of a quaternion, `x*x + y*y + z*z + w*w`. -/
def MQuaternion.normSq (q : MQuaternion α) : α := q.x * q.x + q.y * q.y + q.z * q.z + q.w * q.w

/-- The four-dimensional dot product of two quaternions. -/
def MQuaternion.dot (p q : MQuaternion α) : α := p.x * q.x + p.y * q.y + p.z * q.z + p.w * q.w

/-- The quaternion with all four components negated (the same rotation). -/
def MQuaternion.neg (q : MQuaternion α) : MQuaternion α := ⟨-q.x, -q.y, -q.z, -q.w⟩

/-- The accessors and the builder of the host class `MTransformationMatrix` that the
source calls. `translation s m` is `MTransformationMatrix(m).translation(s)`,
`rotation m` is `.rotation()`, `getScale s m` is `.getScale(_, s)`, `eulerRotation m`
is the `x y z` of `.eulerRotation()`, and `compose s tr q sc` is `asMatrix()` of a
fresh object after `setTranslation(tr, s)`, `setRotationQuaternion(q.x, q.y, q.z, q.w)`
and `setScale(sc, s)`. -/
structure Sdk (α : Type) where
  translation : MSpace → MMatrix α → MVector α
  rotation : MMatrix α → MQuaternion α
  getScale : MSpace → MMatrix α → MVector α
  eulerRotation : MMatrix α → MVector α
  compose : MSpace → MVector α → MQuaternion α → MVector α → MMatrix α

/-- The three blended channels of `blendWorldMatrices` before they are recomposed. -/
structure Blended (α : Type) where
  translation : MVector α
  rotation : MQuaternion α
  scale : MVector α

/-- The nine outputs of `worldMatrixToLocalTransform`. -/
structure LocalTransform (α : Type) where
  tx : α
  ty : α
  tz : α
  rx : α
  ry : α
  rz : α
  sx : α
  sy : α
  sz : α

/-- The factor `t` of `blendWorldMatrices`:
`t = (blendValue + 1.0f) * 0.5f; t = (t < 0) ? 0 : (t > 1) ? 1 : t`. -/
def blendFactor (blendValue : α) : α :=
  let t := (blendValue + 1) * (1 / 2)
  if t < 0 then 0 else if t > 1 then 1 else t

/-- The factor `t` of the non-transform branch of `tween`:
`t = (sliderValue + 1.0f) * 0.5f; t = (t < 0) ? 0 : (t > 1) ? 1 : t`. -/
def tweenFactor (sliderValue : α) : α :=
  let t := (sliderValue + 1) * (1 / 2)
  if t < 0 then 0 else if t > 1 then 1 else t

/-! ## `slerpQuaternion` -/

/-- `BlendToWorldSpace::slerpQuaternion`, with `acos`, `sin` and `sqrt` of `<cmath>`
as arguments. -/
def slerpQuaternion (acos sin sqrt : α → α) (q1 q2 : MQuaternion α) (t : α) : MQuaternion α :=
  let dot0 := q1.x * q2.x + q1.y * q2.y + q1.z * q2.z + q1.w * q2.w
  let q2Adjusted : MQuaternion α := if dot0 < 0 then ⟨-q2.x, -q2.y, -q2.z, -q2.w⟩ else q2
  let dot1 := if dot0 < 0 then -dot0 else dot0
  let dot2 := if dot1 > 1 then 1 else dot1
  let dot := if dot2 < -1 then -1 else dot2
  let theta := acos dot
  let sinTheta := sin theta
  if sinTheta < 1 / 1000000 then
    let rx := q1.x + (q2Adjusted.x - q1.x) * t
    let ry := q1.y + (q2Adjusted.y - q1.y) * t
    let rz := q1.z + (q2Adjusted.z - q1.z) * t
    let rw := q1.w + (q2Adjusted.w - q1.w) * t
    let len := sqrt (rx * rx + ry * ry + rz * rz + rw * rw)
    if len > 1 / 1000000 then ⟨rx / len, ry / len, rz / len, rw / len⟩
    else ⟨rx, ry, rz, rw⟩
  else
    let w1 := sin ((1 - t) * theta) / sinTheta
    let w2 := sin (t * theta) / sinTheta
    ⟨w1 * q1.x + w2 * q2Adjusted.x, w1 * q1.y + w2 * q2Adjusted.y,
     w1 * q1.z + w2 * q2Adjusted.z, w1 * q1.w + w2 * q2Adjusted.w⟩

/-! ## `blendWorldMatrices` -/

/-- The body of `blendWorldMatrices` up to the reconstruction: the blended
translation, rotation and scale. -/
def blendedChannels (sdk : Sdk α) (acos sin sqrt : α → α)
    (prevMatrix nextMatrix : MMatrix α) (blendValue : α) : Blended α :=
  let t := blendFactor blendValue
  let prevTranslation := sdk.translation MSpace.kWorld prevMatrix
  let nextTranslation := sdk.translation MSpace.kWorld nextMatrix
  let blendedTranslation := prevTranslation.add ((nextTranslation.sub prevTranslation).scale t)
  let prevQuat := sdk.rotation prevMatrix
  let nextQuat := sdk.rotation nextMatrix
  let blendedQuat := slerpQuaternion acos sin sqrt prevQuat nextQuat t
  let prevScale := sdk.getScale MSpace.kWorld prevMatrix
  let nextScale := sdk.getScale MSpace.kWorld nextMatrix
  let blendedScale : MVector α :=
    ⟨prevScale.x + (nextScale.x - prevScale.x) * t,
     prevScale.y + (nextScale.y - prevScale.y) * t,
     prevScale.z + (nextScale.z - prevScale.z) * t⟩
  ⟨blendedTranslation, blendedQuat, blendedScale⟩

/-- `BlendToWorldSpace::blendWorldMatrices`: the blended channels recomposed. -/
def blendWorldMatrices (sdk : Sdk α) (acos sin sqrt : α → α)
    (prevMatrix nextMatrix : MMatrix α) (blendValue : α) : MMatrix α :=
  let b := blendedChannels sdk acos sin sqrt prevMatrix nextMatrix blendValue
  sdk.compose MSpace.kWorld b.translation b.rotation b.scale

/-! ## `worldMatrixToLocalTransform` -/

/-- The assignment `m(i, j) = v` on an `MMatrix`. -/
def setEntry (m : MMatrix α) (i j : Fin 4) (v : α) : MMatrix α :=
  Matrix.of fun a b => if a = i ∧ b = j then v else m a b

/-- The triple loop of `worldMatrixToLocalTransform`: `localMatrix` starts as a
default-constructed `MMatrix` (the identity) and every entry `(i, j)` is assigned
the sum, accumulated from `0.0` over `k = 0..3`, of
`worldMatrix(i, k) * parentInverse(k, j)`. -/
def localMatrixLoop (worldMatrix parentInverse : MMatrix α) : MMatrix α :=
  ([0, 1, 2, 3] : List (Fin 4)).foldl
    (fun m i =>
      ([0, 1, 2, 3] : List (Fin 4)).foldl
        (fun m j =>
          let sum := ([0, 1, 2, 3] : List (Fin 4)).foldl
            (fun s k => s + worldMatrix i k * parentInverse k j) 0
          setEntry m i j sum)
        m)
    (1 : MMatrix α)

/-- The decomposition that `worldMatrixToLocalTransform` applies to a local matrix:
translation and scale in `MSpace::kTransform`, and the Euler rotation. -/
def decomposeLocal (sdk : Sdk α) (localMatrix : MMatrix α) : LocalTransform α :=
  let translation := sdk.translation MSpace.kTransform localMatrix
  let rotation := sdk.eulerRotation localMatrix
  let scale := sdk.getScale MSpace.kTransform localMatrix
  ⟨translation.x, translation.y, translation.z,
   rotation.x, rotation.y, rotation.z,
   scale.x, scale.y, scale.z⟩

/-- `BlendToWorldSpace::worldMatrixToLocalTransform`; the nine reference outputs are
returned as a record. -/
def worldMatrixToLocalTransform (sdk : Sdk α) (worldMatrix parentInverse : MMatrix α) :
    LocalTransform α :=
  decomposeLocal sdk (localMatrixLoop worldMatrix parentInverse)

/-! ## `tween` -/

/-- The value of `q2Adjusted` in `slerpQuaternion`: `q2` negated when the dot product
with `q1` is negative. -/
def shorterArc (q1 q2 : MQuaternion α) : MQuaternion α :=
  if q1.dot q2 < 0 then q2.neg else q2

/-- The value of `dot` in `slerpQuaternion` when `acos` is called: after the sign
correction and the two clamping statements. -/
def clampedDot (q1 q2 : MQuaternion α) : α :=
  let dot0 := q1.dot q2
  let dot1 := if dot0 < 0 then -dot0 else dot0
  let dot2 := if dot1 > 1 then 1 else dot1
  if dot2 < -1 then -1 else dot2

/-- The weighted sum `a * p + b * q`, component by component. -/
def MQuaternion.comb (a b : α) (p q : MQuaternion α) : MQuaternion α :=
  ⟨a * p.x + b * q.x, a * p.y + b * q.y, a * p.z + b * q.z, a * p.w + b * q.w⟩

/-- The component-wise interpolation `q1 + (q2 - q1) * t` of the fallback branch. -/
def MQuaternion.mix (q1 q2 : MQuaternion α) (t : α) : MQuaternion α :=
  ⟨q1.x + (q2.x - q1.x) * t, q1.y + (q2.y - q1.y) * t,
   q1.z + (q2.z - q1.z) * t, q1.w + (q2.w - q1.w) * t⟩

/-- The division of the four components by `len`. -/
def MQuaternion.divide (q : MQuaternion α) (len : α) : MQuaternion α :=
  ⟨q.x / len, q.y / len, q.z / len, q.w / len⟩

/-- The part of `slerpQuaternion` that follows the clamp, as a function of the
adjusted second quaternion and of the clamped dot product. -/
def slerpCore (acos sin sqrt : α → α) (q1 q2Adjusted : MQuaternion α) (dot t : α) :
    MQuaternion α :=
  if sin (acos dot) < 1 / 1000000 then
    if sqrt (q1.mix q2Adjusted t).normSq > 1 / 1000000 then
      (q1.mix q2Adjusted t).divide (sqrt (q1.mix q2Adjusted t).normSq)
    else q1.mix q2Adjusted t
  else
    MQuaternion.comb (sin ((1 - t) * acos dot) / sin (acos dot))
      (sin (t * acos dot) / sin (acos dot)) q1 q2Adjusted

/-- An instance of the SDK interface for matrices without rotation: translation is
the fourth row, scale the diagonal, rotation the identity quaternion; `compose`
builds the matching matrix. It serves to evaluate the definitions on concrete
matrices. -/
def axisSdk (α : Type) [LinearOrderedField α] : Sdk α where
  translation := fun _ m => ⟨m 3 0, m 3 1, m 3 2⟩
  rotation := fun _ => ⟨0, 0, 0, 1⟩
  getScale := fun _ m => ⟨m 0 0, m 1 1, m 2 2⟩
  eulerRotation := fun _ => ⟨0, 0, 0⟩
  compose := fun _ tr _ sc =>
    Matrix.of fun i j =>
      if i = 3 then (if j = 0 then tr.x else if j = 1 then tr.y else if j = 2 then tr.z else 1)
      else if i = j then (if i = 0 then sc.x else if i = 1 then sc.y else sc.z)
      else 0

/-- The matrix of a pure translation by `(x, y, z)` (translation in the fourth row). -/
def translationMatrix (x y z : α) : MMatrix α :=
  Matrix.of fun i j =>
    if i = 3 then (if j = 0 then x else if j = 1 then y else if j = 2 then z else 1)
    else if i = j then 1 else 0

/-- The matrix whose rows hold the three channels as they are: row 0 the quaternion,
row 1 the scale, row 3 the translation. -/
def channelRows (tr : MVector α) (q : MQuaternion α) (sc : MVector α) : MMatrix α :=
  !![q.x, q.y, q.z, q.w; sc.x, sc.y, sc.z, 0; 0, 0, 0, 0; tr.x, tr.y, tr.z, 1]

/-- An instance of the SDK interface that reads the channels back from the rows of
`channelRows`. It is not the host's decomposition; it serves to evaluate the
definitions on matrices whose rotation quaternions are not the identity. -/
def rowSdk (α : Type) [LinearOrderedField α] : Sdk α where
  translation := fun _ m => ⟨m 3 0, m 3 1, m 3 2⟩
  rotation := fun m => ⟨m 0 0, m 0 1, m 0 2, m 0 3⟩
  getScale := fun _ m => ⟨m 1 0, m 1 1, m 1 2⟩
  eulerRotation := fun m => ⟨m 2 0, m 2 1, m 2 2⟩
  compose := fun _ tr q sc => channelRows tr q sc

/-! ## `getWorldMatrixAt` and `getParentInverseMatrixAt` -/

/-- The host enum `MTransformationMatrix::RotationOrder` (`kInvalid = 0`, `kXYZ = 1`,
and so on). -/
inductive RotationOrder where
  | kInvalid
  | kXYZ
  | kYZX
  | kZXY
  | kXZY
  | kYXZ
  | kZYX
  | kLast
deriving DecidableEq, Repr

/-- The C cast `(MTransformationMatrix::RotationOrder)(n)` on the values of the enum;
any other integer is read as `kInvalid`. -/
def RotationOrder.ofInt (n : Int) : RotationOrder :=
  if n = 1 then RotationOrder.kXYZ
  else if n = 2 then RotationOrder.kYZX
  else if n = 3 then RotationOrder.kZXY
  else if n = 4 then RotationOrder.kXZY
  else if n = 5 then RotationOrder.kYXZ
  else if n = 6 then RotationOrder.kZYX
  else if n = 7 then RotationOrder.kLast
  else RotationOrder.kInvalid

/-- What `getWorldMatrixAt` reads of one transform node in the context of `time`: its
translation, the plugs `rotateX`, `rotateY`, `rotateZ` and `rotateOrder`, and its
scale. -/
structure TransformSample (α : Type) where
  translation : MVector α
  rotateX : α
  rotateY : α
  rotateZ : α
  rotateOrder : Int
  scale : MVector α

/-- The local matrix that `getWorldMatrixAt` builds for a node (and
`getParentInverseMatrixAt` for the parent). The argument `asMatrix tr rot order sc`
stands for the host calls `setTranslation(tr, kTransform)`,
`setRotation(rot, order)`, `setScale(sc, kTransform)` and `asMatrix()` on a fresh
`MTransformationMatrix`; the order passed is `rotateOrder + 1`. -/
def localMatrixAt (asMatrix : MVector α → MVector α → RotationOrder → MVector α → MMatrix α)
    (object : TransformSample α) : MMatrix α :=
  let rotationValues : MVector α := ⟨object.rotateX, object.rotateY, object.rotateZ⟩
  let rotationOrder := RotationOrder.ofInt (object.rotateOrder + 1)
  asMatrix object.translation rotationValues rotationOrder object.scale

/-- `BlendToWorldSpace::getWorldMatrixAt`. The DAG path of the object is the list of
the samples of its nodes, the object first and its topmost ancestor last, so that
`dagPath.length()` is the length of the list and `pop()` drops the head. The path of
the parent is taken to be the popped path. The empty path does not occur for a
node; it is given the identity. -/
def getWorldMatrixAt
    (asMatrix : MVector α → MVector α → RotationOrder → MVector α → MMatrix α) :
    List (TransformSample α) → MMatrix α
  | [] => 1
  | object :: parentPath =>
    let localMatrix := localMatrixAt asMatrix object
    let parentWorldMatrix : MMatrix α :=
      if (object :: parentPath).length > 1 then getWorldMatrixAt asMatrix parentPath else 1
    localMatrix * parentWorldMatrix

/-- `BlendToWorldSpace::getParentInverseMatrixAt` on the DAG path of the object;
`inverse` is the host's `MMatrix::inverse`. -/
def getParentInverseMatrixAt
    (asMatrix : MVector α → MVector α → RotationOrder → MVector α → MMatrix α)
    (inverse : MMatrix α → MMatrix α) : List (TransformSample α) → MMatrix α
  | [] => 1
  | [_] => 1
  | _ :: parent :: parentParentPath =>
    let parentLocalMatrix := localMatrixAt asMatrix parent
    let parentParentWorldMatrix : MMatrix α :=
      if (parent :: parentParentPath).length > 1 then
        getWorldMatrixAt asMatrix parentParentPath
      else 1
    let parentWorldMatrix := parentParentWorldMatrix * parentLocalMatrix
    inverse parentWorldMatrix

/-! ## A model of the host composition of a local matrix, to evaluate at concrete nodes -/

/-- The rotation about X by the angle of sine `s` and cosine `c` (row vectors). -/
def rotX (s c : α) : MMatrix α :=
  !![1, 0, 0, 0; 0, c, s, 0; 0, -s, c, 0; 0, 0, 0, 1]

/-- The rotation about Y by the angle of sine `s` and cosine `c` (row vectors). -/
def rotY (s c : α) : MMatrix α :=
  !![c, 0, -s, 0; 0, 1, 0, 0; s, 0, c, 0; 0, 0, 0, 1]

/-- The rotation about Z by the angle of sine `s` and cosine `c` (row vectors). -/
def rotZ (s c : α) : MMatrix α :=
  !![c, s, 0, 0; -s, c, 0, 0; 0, 0, 1, 0; 0, 0, 0, 1]

/-- The matrix of the scale by `(x, y, z)`. -/
def scaleMatrix (x y z : α) : MMatrix α :=
  !![x, 0, 0, 0; 0, y, 0, 0; 0, 0, z, 0; 0, 0, 0, 1]

/-- The rotation matrix of Euler angles in a rotation order: the order `kXYZ` rotates
about X first, then Y, then Z, which for row vectors is the product `X * Y * Z`. -/
def eulerMatrix (sin cos : α → α) (order : RotationOrder) (rot : MVector α) : MMatrix α :=
  let X := rotX (sin rot.x) (cos rot.x)
  let Y := rotY (sin rot.y) (cos rot.y)
  let Z := rotZ (sin rot.z) (cos rot.z)
  match order with
  | RotationOrder.kXYZ => X * Y * Z
  | RotationOrder.kYZX => Y * Z * X
  | RotationOrder.kZXY => Z * X * Y
  | RotationOrder.kXZY => X * Z * Y
  | RotationOrder.kYXZ => Y * X * Z
  | RotationOrder.kZYX => Z * Y * X
  | _ => 1

/-- The composition scale, then rotation, then translation of a transform without
pivots, as an instance of the argument `asMatrix` of `localMatrixAt`. -/
def eulerAsMatrix (sin cos : α → α) (tr rot : MVector α) (order : RotationOrder)
    (sc : MVector α) : MMatrix α :=
  scaleMatrix sc.x sc.y sc.z * eulerMatrix sin cos order rot * translationMatrix tr.x tr.y tr.z

/-- A node at rest: no translation, no rotation, unit scale, rotate order `xyz`. -/
def restSample (α : Type) [LinearOrderedField α] : TransformSample α :=
  ⟨⟨0, 0, 0⟩, 0, 0, 0, 0, ⟨1, 1, 1⟩⟩

/-- A node translated by `(1, 0, 0)`. -/
def movedSample (α : Type) [LinearOrderedField α] : TransformSample α :=
  ⟨⟨1, 0, 0⟩, 0, 0, 0, 0, ⟨1, 1, 1⟩⟩

/-- A node scaled by `(2, 2, 2)`. -/
def scaledSample (α : Type) [LinearOrderedField α] : TransformSample α :=
  ⟨⟨0, 0, 0⟩, 0, 0, 0, 0, ⟨2, 2, 2⟩⟩

/-- A node with rotate order `xyz` (`rotateOrder = 0`) whose plugs are
`rotateX = q`, `rotateY = 0`, `rotateZ = q`. -/
def xyzSample (q : α) : TransformSample α :=
  ⟨⟨0, 0, 0⟩, q, 0, q, 0, ⟨1, 1, 1⟩⟩

/-- A node with rotate order `yzx` (`rotateOrder = 1`) whose plugs are
`rotateX = q`, `rotateY = q`, `rotateZ = 0`. -/
def yzxSample (q : α) : TransformSample α :=
  ⟨⟨0, 0, 0⟩, q, q, 0, 1, ⟨1, 1, 1⟩⟩

end BlendToWorldSpace

/-! ## The temporary pivot (`TempPivot`) -/

namespace TempPivot

open BlendToWorldSpace

variable {α : Type} [LinearOrderedField α]

/-- The host's `MDagPath`: the names of the nodes from the topmost one down to the
object, so that `pop()` drops the last name. -/
abbrev MDagPath := List String

/-- `TempPivot::ObjectInfo`: a selected object and its matrix relative to the pivot.
`ObjectInfo{ object }` leaves `relativeMatrix` a default `MMatrix`, the identity. -/
structure ObjectInfo (α : Type) where
  object : MDagPath
  relativeMatrix : MMatrix α

/-- A host call that changes the scene or the user interface, as recorded by the
model. -/
inductive HostCall where
  | inViewMessage (text : String)
  | setupSelectionConnection (objects : List MDagPath)
  | removeSelectionConnection
  | deleteNode (name : String)
  | createNode (name : String)
  | setPivotMatrixFrom (object : MDagPath)
  | setToolTo (tool : String)
  | setActiveSelectionList (objects : List MDagPath)
  | selectByName (object : MDagPath)
  | ctxEditMode (pivot : MDagPath)
deriving DecidableEq, Repr

/-- What the host answers when the tool asks, and the constant `kPivotTransformName` of
the header. `activeSelection` lists the DAG path of every selected item with the flag
`apiType() == MFn::kTransform`; `inverse` is `MMatrix::inverse`;
`attributeChangedId` is the id that `MNodeMessage::addAttributeChangedCallback`
returns. -/
structure Host (α : Type) where
  kPivotTransformName : String
  activeSelection : List (MDagPath × Bool)
  isNodeValid : MDagPath → Bool
  inclusiveMatrix : MDagPath → MMatrix α
  inverse : MMatrix α → MMatrix α
  attributeChangedId : Nat

/-- The members of `TempPivot` that `toggle`, `create` and `cleanUp` read or write,
with `pivotNodeExists` for the existence of the pivot node in the scene and
`hostCalls` for the host calls issued so far. -/
structure State (α : Type) where
  enableState : Bool
  objectsInfo : List (ObjectInfo α)
  pivotTransform : MDagPath
  callbackIds : List String
  AttributeChangedCallbackId : Nat
  pivotNodeExists : Bool
  hostCalls : List HostCall

/-- `TempPivot::updateRelativeMatrices` on the list `objectsInfo`;
`inclusiveMatrixInverse()` of the pivot is the host inverse of its inclusive
matrix. -/
def updateRelativeMatrices (inverse : MMatrix α → MMatrix α)
    (inclusiveMatrix : MDagPath → MMatrix α) (pivotTransform : MDagPath)
    (objectsInfo : List (ObjectInfo α)) : List (ObjectInfo α) :=
  let pivotWorldMatrixInverse := inverse (inclusiveMatrix pivotTransform)
  objectsInfo.map fun objectInfo =>
    { objectInfo with
      relativeMatrix := inclusiveMatrix objectInfo.object * pivotWorldMatrixInverse }

/-- `TempPivot::applyTransformations`: for every object, the matrix `newWorldMatrix`
that is sent to the command `xform -worldSpace -matrix`. -/
def applyTransformations (inclusiveMatrix : MDagPath → MMatrix α) (pivotTransform : MDagPath)
    (objectsInfo : List (ObjectInfo α)) : List (MDagPath × MMatrix α) :=
  let pivotWorldMatrix := inclusiveMatrix pivotTransform
  objectsInfo.map fun objectInfo =>
    (objectInfo.object, objectInfo.relativeMatrix * pivotWorldMatrix)

/-- `TempPivot::getActiveSelection`: the status (`true` for `kSuccess`) and the new
state. -/
def getActiveSelection (host : Host α) (s : State α) : Bool × State α :=
  if host.activeSelection.length = 0 then
    (false, { s with
      hostCalls := s.hostCalls ++ [HostCall.inViewMessage "Select One or More Objects"] })
  else
    (true, { s with
      objectsInfo := s.objectsInfo ++ host.activeSelection.map fun item =>
        ⟨if item.2 then item.1 else item.1.dropLast, 1⟩ })

/-- `TempPivot::removeAttributeChangedCallback`. -/
def removeAttributeChangedCallback (s : State α) : State α :=
  { s with AttributeChangedCallbackId := 0 }

/-- `TempPivot::addAttributeChangedCallback`. -/
def addAttributeChangedCallback (host : Host α) (s : State α) : State α :=
  if s.AttributeChangedCallbackId = 0 then
    { s with AttributeChangedCallbackId := host.attributeChangedId }
  else s

/-- `TempPivot::removeCallbacks`. The removal of the idle callback is a host call on an
id that none of the modelled functions sets. -/
def removeCallbacks (s : State α) : State α :=
  { removeAttributeChangedCallback s with callbackIds := [] }

/-- `TempPivot::addCallbacks`. -/
def addCallbacks (host : Host α) (s : State α) : State α :=
  if s.callbackIds.length ≠ 0 then s
  else
    addAttributeChangedCallback host
      { s with
        callbackIds := s.callbackIds ++
          ["timeChange", "animCurveEdited", "PreFileNewOrOpened", "kActiveListModified"] }

/-- `TempPivot::deleteTempPivotNode`. -/
def deleteTempPivotNode (host : Host α) (s : State α) : State α :=
  if s.pivotNodeExists then
    { s with
      pivotNodeExists := false
      hostCalls := s.hostCalls ++ [HostCall.deleteNode host.kPivotTransformName] }
  else s

/-- `TempPivot::createTempPivotNode`. -/
def createTempPivotNode (host : Host α) (s : State α) : State α :=
  let s1 := deleteTempPivotNode host s
  { s1 with
    pivotNodeExists := true
    pivotTransform := [host.kPivotTransformName]
    hostCalls := s1.hostCalls ++ [HostCall.createNode host.kPivotTransformName] }

/-- `TempPivot::setupSelectionConnection`. -/
def setupSelectionConnection (s : State α) : State α :=
  { s with
    hostCalls := s.hostCalls ++
      [HostCall.setupSelectionConnection (s.objectsInfo.map fun o => o.object)] }

/-- `TempPivot::ctxEditMode`. -/
def ctxEditMode (s : State α) : State α :=
  { s with hostCalls := s.hostCalls ++ [HostCall.ctxEditMode s.pivotTransform] }

/-- `TempPivot::cleanUp`. -/
def cleanUp (host : Host α) (s : State α) : State α :=
  let s1 := removeCallbacks s
  let s2 := { s1 with hostCalls := s1.hostCalls ++ [HostCall.removeSelectionConnection] }
  let s3 := deleteTempPivotNode host s2
  { s3 with
    hostCalls := s3.hostCalls ++
      [HostCall.setToolTo "moveSuperContext", HostCall.setActiveSelectionList []] ++
      s3.objectsInfo.map fun objectInfo => HostCall.selectByName objectInfo.object
    objectsInfo := []
    enableState := false }

/-- `TempPivot::updateTempPosition`. The pivot is given the inclusive matrix of the
first object before the relative matrices are recomputed. `objectsInfo[0]` of an empty
vector is undefined in C++; the model reads it as an invalid node. -/
def updateTempPosition (host : Host α) (s : State α) : State α :=
  match s.objectsInfo with
  | [] => cleanUp host s
  | first :: _ =>
    if !host.isNodeValid first.object || !host.isNodeValid s.pivotTransform then
      cleanUp host s
    else
      let s1 := removeAttributeChangedCallback s
      let s2 := { s1 with
        hostCalls := s1.hostCalls ++ [HostCall.setPivotMatrixFrom first.object] }
      let scene : MDagPath → MMatrix α := fun path =>
        if path = s2.pivotTransform then host.inclusiveMatrix first.object
        else host.inclusiveMatrix path
      let s3 := { s2 with
        objectsInfo :=
          updateRelativeMatrices host.inverse scene s2.pivotTransform s2.objectsInfo }
      addAttributeChangedCallback host s3

/-- `TempPivot::create`. -/
def create (host : Host α) (s : State α) : State α :=
  let status := getActiveSelection host s
  if !status.1 then status.2
  else
    let s1 := setupSelectionConnection status.2
    let s2 := createTempPivotNode host s1
    let s3 := updateTempPosition host s2
    let s4 := addCallbacks host s3
    ctxEditMode s4

/-- `TempPivot::toggle`. -/
def toggle (host : Host α) (s : State α) : State α :=
  let s1 := { s with enableState := !s.enableState }
  if s1.enableState then create host s1 else cleanUp host s1

/-- A host with nothing selected. -/
def idleHost (α : Type) [LinearOrderedField α] : Host α :=
  ⟨"tempPivot", [], fun _ => true, fun _ => 1, fun m => m, 1⟩

/-- A host in which the transform `cube` is the one selected item. -/
def cubeHost (α : Type) [LinearOrderedField α] : Host α :=
  ⟨"tempPivot", [(["cube"], true)], fun _ => true, fun _ => 1, fun m => m, 1⟩

/-- A disabled tool: no object, no callback, no pivot node, no host call yet. -/
def disabledState (α : Type) [LinearOrderedField α] : State α :=
  ⟨false, [], [], [], 0, false, []⟩

/-- A scene with the pivot `tempPivot` translated by `(1, 2, 3)` and every other node
translated by `(5, 0, 0)`. -/
def sampleScene (α : Type) [LinearOrderedField α] : MDagPath → MMatrix α :=
  fun path => if path = ["tempPivot"] then translationMatrix 1 2 3 else translationMatrix 5 0 0

end TempPivot

namespace BlendToWorldSpace

variable {α : Type} [LinearOrderedField α]

/-! ## The slider remap -/

theorem blendFactor_eq_clamp (v : α) : blendFactor v = max 0 (min 1 ((v + 1) / 2)) := by
  unfold blendFactor
  have h2 : (v + 1) * (1 / 2) = (v + 1) / 2 := by ring
  simp only [h2]
  by_cases h0 : (v + 1) / 2 < 0
  · rw [if_pos h0, max_eq_left]
    exact le_trans (min_le_right _ _) h0.le
  · rw [if_neg h0]
    push_neg at h0
    by_cases h1 : (v + 1) / 2 > 1
    · rw [if_pos h1, min_eq_left h1.le, max_eq_right zero_le_one]
    · rw [if_neg h1]
      push_neg at h1
      rw [min_eq_right h1, max_eq_right h0]

theorem tweenFactor_eq_blendFactor (v : α) : tweenFactor v = blendFactor v := rfl

theorem blendFactor_of_le (v : α) (h : v ≤ -1) : blendFactor v = 0 := by
  rw [blendFactor_eq_clamp]
  have : (v + 1) / 2 ≤ 0 := by linarith
  rw [max_eq_left]
  exact le_trans (min_le_right _ _) this

theorem blendFactor_of_ge (v : α) (h : 1 ≤ v) : blendFactor v = 1 := by
  rw [blendFactor_eq_clamp]
  have : 1 ≤ (v + 1) / 2 := by linarith
  rw [min_eq_left this, max_eq_right zero_le_one]

theorem blendFactor_of_mem (v : α) (h0 : -1 ≤ v) (h1 : v ≤ 1) :
    blendFactor v = (v + 1) / 2 := by
  rw [blendFactor_eq_clamp]
  have a : 0 ≤ (v + 1) / 2 := by linarith
  have b : (v + 1) / 2 ≤ 1 := by linarith
  rw [min_eq_right b, max_eq_right a]

theorem blendFactor_nonneg (v : α) : 0 ≤ blendFactor v := by
  rw [blendFactor_eq_clamp]; exact le_max_left _ _

theorem blendFactor_le_one (v : α) : blendFactor v ≤ 1 := by
  rw [blendFactor_eq_clamp]; exact max_le zero_le_one (min_le_left _ _)

/-- C2: for every slider value `rawT` the factor of `blendWorldMatrices` and the factor
of the non-transform branch of `tween` both equal `clamp((rawT + 1) / 2, 0, 1)`; the
factor lies in `[0, 1]`, is `0` for `rawT ≤ -1`, `1` for `rawT ≥ 1` and
`(rawT + 1) / 2` in between. Both are total functions of the slider value: no value
is rejected. -/
theorem interpolation_factor_is_clamp (rawT : α) :
    blendFactor rawT = max 0 (min 1 ((rawT + 1) / 2)) ∧
    tweenFactor rawT = max 0 (min 1 ((rawT + 1) / 2)) ∧
    (0 ≤ blendFactor rawT ∧ blendFactor rawT ≤ 1) ∧
    (0 ≤ tweenFactor rawT ∧ tweenFactor rawT ≤ 1) ∧
    (rawT ≤ -1 → blendFactor rawT = 0 ∧ tweenFactor rawT = 0) ∧
    (1 ≤ rawT → blendFactor rawT = 1 ∧ tweenFactor rawT = 1) ∧
    (-1 ≤ rawT → rawT ≤ 1 →
      blendFactor rawT = (rawT + 1) / 2 ∧ tweenFactor rawT = (rawT + 1) / 2) := by
  simp only [tweenFactor_eq_blendFactor, and_self]
  exact ⟨blendFactor_eq_clamp rawT, blendFactor_eq_clamp rawT,
    ⟨blendFactor_nonneg rawT, blendFactor_le_one rawT⟩,
    ⟨blendFactor_nonneg rawT, blendFactor_le_one rawT⟩,
    blendFactor_of_le rawT, blendFactor_of_ge rawT, blendFactor_of_mem rawT⟩

/-- The factor at the out-of-range slider values `-3` and `7` and at `1/2`. -/
theorem interpolation_factor_is_clamp_witness :
    (blendFactor (-3 : ℚ) = 0 ∧ tweenFactor (-3 : ℚ) = 0) ∧
    (blendFactor (7 : ℚ) = 1 ∧ tweenFactor (7 : ℚ) = 1) ∧
    (blendFactor (1 / 2 : ℚ) = (1 / 2 + 1) / 2 ∧ tweenFactor (1 / 2 : ℚ) = (1 / 2 + 1) / 2) :=
  ⟨(interpolation_factor_is_clamp (-3 : ℚ)).2.2.2.2.1 (by norm_num),
   (interpolation_factor_is_clamp (7 : ℚ)).2.2.2.2.2.1 (by norm_num),
   (interpolation_factor_is_clamp (1 / 2 : ℚ)).2.2.2.2.2.2 (by norm_num) (by norm_num)⟩

/-! ## Translation and scale -/

omit [LinearOrderedField α] in
theorem fill_row (m : MMatrix α) (i : Fin 4) (f : Fin 4 → α) (a b : Fin 4) :
    (([0, 1, 2, 3] : List (Fin 4)).foldl (fun m j => setEntry m i j (f j)) m) a b =
      if a = i then f b else m a b := by
  simp only [List.foldl_cons, List.foldl_nil, setEntry, Matrix.of_apply]
  by_cases h : a = i
  · fin_cases b <;> simp [h]
  · simp [h]

omit [LinearOrderedField α] in
theorem fill_rows (m : MMatrix α) (F : Fin 4 → Fin 4 → α) (a b : Fin 4) :
    (([0, 1, 2, 3] : List (Fin 4)).foldl
      (fun m i => ([0, 1, 2, 3] : List (Fin 4)).foldl (fun m j => setEntry m i j (F i j)) m)
      m) a b = F a b := by
  have e : ∀ (f : MMatrix α → Fin 4 → MMatrix α) (m : MMatrix α),
      List.foldl f m [0, 1, 2, 3] = f (f (f (f m 0) 1) 2) 3 := fun _ _ => rfl
  rw [e]
  simp only [fill_row]
  fin_cases a <;> simp

theorem localMatrixLoop_apply (W P : MMatrix α) (i j : Fin 4) :
    localMatrixLoop W P i j = W i 0 * P 0 j + W i 1 * P 1 j + W i 2 * P 2 j + W i 3 * P 3 j := by
  unfold localMatrixLoop
  rw [fill_rows 1 (fun i j => ([0, 1, 2, 3] : List (Fin 4)).foldl
    (fun s k => s + W i k * P k j) 0) i j]
  simp only [List.foldl_cons, List.foldl_nil, zero_add]

theorem localMatrixLoop_eq_mul (W P : MMatrix α) : localMatrixLoop W P = W * P := by
  ext i j
  rw [localMatrixLoop_apply, Matrix.mul_apply, Fin.sum_univ_four]

/-- C9: the triple loop of `worldMatrixToLocalTransform` computes the matrix product
`W * parentInverse` (world times parent-inverse); with the identity as
parent-inverse the local matrix equals `W` entry for entry, and the returned
translate/rotate/scale are those of the direct decomposition of `W`. -/
theorem local_matrix_is_world_times_parent_inverse (sdk : Sdk α) (W P : MMatrix α) :
    localMatrixLoop W P = W * P ∧
    (∀ i j : Fin 4, localMatrixLoop W 1 i j = W i j) ∧
    worldMatrixToLocalTransform sdk W P = decomposeLocal sdk (W * P) ∧
    worldMatrixToLocalTransform sdk W 1 = decomposeLocal sdk W := by
  refine ⟨localMatrixLoop_eq_mul W P, fun i j => ?_, ?_, ?_⟩
  · rw [localMatrixLoop_eq_mul, mul_one]
  · rw [worldMatrixToLocalTransform, localMatrixLoop_eq_mul]
  · rw [worldMatrixToLocalTransform, localMatrixLoop_eq_mul, mul_one]

/-! ## The non-transform branch of `tween` -/

theorem slerpQuaternion_eq_core (acos sin sqrt : α → α) (q1 q2 : MQuaternion α) (t : α) :
    slerpQuaternion acos sin sqrt q1 q2 t =
      slerpCore acos sin sqrt q1 (shorterArc q1 q2) (clampedDot q1 q2) t := by
  rfl

theorem shorterArc_cases (q1 q2 : MQuaternion α) :
    shorterArc q1 q2 = q2 ∨ shorterArc q1 q2 = q2.neg := by
  unfold shorterArc
  split_ifs
  · exact Or.inr rfl
  · exact Or.inl rfl

theorem normSq_neg (q : MQuaternion α) : q.neg.normSq = q.normSq := by
  simp only [MQuaternion.neg, MQuaternion.normSq]; ring

theorem dot_neg (p q : MQuaternion α) : p.dot q.neg = -p.dot q := by
  simp only [MQuaternion.neg, MQuaternion.dot]; ring

theorem normSq_shorterArc (q1 q2 : MQuaternion α) : (shorterArc q1 q2).normSq = q2.normSq := by
  rcases shorterArc_cases q1 q2 with h | h <;> rw [h]
  exact normSq_neg q2

theorem dot_shorterArc (q1 q2 : MQuaternion α) : q1.dot (shorterArc q1 q2) = |q1.dot q2| := by
  unfold shorterArc
  split_ifs with h
  · rw [dot_neg, abs_of_neg h]
  · rw [abs_of_nonneg (not_lt.mp h)]

theorem mix_eq_comb (q1 q2 : MQuaternion α) (t : α) :
    q1.mix q2 t = MQuaternion.comb (1 - t) t q1 q2 := by
  simp only [MQuaternion.mix, MQuaternion.comb, MQuaternion.mk.injEq]
  refine ⟨?_, ?_, ?_, ?_⟩ <;> ring

theorem normSq_comb (a b : α) (p q : MQuaternion α) :
    (MQuaternion.comb a b p q).normSq =
      a * a * p.normSq + 2 * a * b * p.dot q + b * b * q.normSq := by
  simp only [MQuaternion.comb, MQuaternion.normSq, MQuaternion.dot]; ring

theorem dot_comb (a b : α) (p q : MQuaternion α) :
    p.dot (MQuaternion.comb a b p q) = a * p.normSq + b * p.dot q := by
  simp only [MQuaternion.comb, MQuaternion.normSq, MQuaternion.dot]; ring

theorem normSq_divide (q : MQuaternion α) (len : α) :
    (q.divide len).normSq = q.normSq / (len * len) := by
  simp only [MQuaternion.divide, MQuaternion.normSq]
  by_cases h : len = 0
  · simp [h]
  · field_simp

theorem dot_divide (p q : MQuaternion α) (len : α) :
    p.dot (q.divide len) = p.dot q / len := by
  simp only [MQuaternion.divide, MQuaternion.dot]
  by_cases h : len = 0
  · simp [h]
  · field_simp

theorem divide_one (q : MQuaternion α) : q.divide 1 = q := by
  simp [MQuaternion.divide]

theorem mix_zero (q1 q2 : MQuaternion α) : q1.mix q2 0 = q1 := by
  simp [MQuaternion.mix]

theorem mix_one (q1 q2 : MQuaternion α) : q1.mix q2 1 = q2 := by
  simp [MQuaternion.mix]

theorem mix_self (q : MQuaternion α) (t : α) : q.mix q t = q := by
  simp [MQuaternion.mix]

theorem dot_le_one (p q : MQuaternion α) (hp : p.normSq = 1) (hq : q.normSq = 1) :
    p.dot q ≤ 1 := by
  simp only [MQuaternion.normSq, MQuaternion.dot] at *
  nlinarith [sq_nonneg (p.x - q.x), sq_nonneg (p.y - q.y), sq_nonneg (p.z - q.z),
    sq_nonneg (p.w - q.w)]

theorem neg_one_le_dot (p q : MQuaternion α) (hp : p.normSq = 1) (hq : q.normSq = 1) :
    -1 ≤ p.dot q := by
  simp only [MQuaternion.normSq, MQuaternion.dot] at *
  nlinarith [sq_nonneg (p.x + q.x), sq_nonneg (p.y + q.y), sq_nonneg (p.z + q.z),
    sq_nonneg (p.w + q.w)]

theorem abs_dot_le_one (p q : MQuaternion α) (hp : p.normSq = 1) (hq : q.normSq = 1) :
    |p.dot q| ≤ 1 :=
  abs_le.mpr ⟨neg_one_le_dot p q hp hq, dot_le_one p q hp hq⟩

theorem clampedDot_eq_abs (q1 q2 : MQuaternion α) (h1 : q1.normSq = 1) (h2 : q2.normSq = 1) :
    clampedDot q1 q2 = |q1.dot q2| := by
  have habs : (if q1.dot q2 < 0 then -q1.dot q2 else q1.dot q2) = |q1.dot q2| := by
    split_ifs with h
    · rw [abs_of_neg h]
    · rw [abs_of_nonneg (not_lt.mp h)]
  have hle := abs_dot_le_one q1 q2 h1 h2
  have h0 := abs_nonneg (q1.dot q2)
  simp only [clampedDot, habs]
  rw [if_neg (not_lt.mpr hle), if_neg (by linarith)]

/-! ## `slerpQuaternion` over the reals: the regular branch -/

theorem weights_normSq (sA cA sB cB S d : ℝ) (hS : S ≠ 0) (hs : S = sA * cB + cA * sB)
    (hc : d = cA * cB - sA * sB) (PA : sA ^ 2 + cA ^ 2 = 1) (PB : sB ^ 2 + cB ^ 2 = 1) :
    sA / S * (sA / S) * 1 + 2 * (sA / S) * (sB / S) * d + sB / S * (sB / S) * 1 = 1 := by
  have key : sA ^ 2 + 2 * sA * sB * d + sB ^ 2 = S ^ 2 := by
    linear_combination (2 * sA * sB) * hc - (S + sA * cB + cA * sB) * hs - sB ^ 2 * PA
      - sA ^ 2 * PB
  have e : sA / S * (sA / S) * 1 + 2 * (sA / S) * (sB / S) * d + sB / S * (sB / S) * 1 =
      (sA ^ 2 + 2 * sA * sB * d + sB ^ 2) / S ^ 2 := by
    field_simp
    ring
  rw [e, key, div_self (pow_ne_zero 2 hS)]

theorem weights_dot (sA cA sB cB S d : ℝ) (hS : S ≠ 0) (hs : S = sA * cB + cA * sB)
    (hc : d = cA * cB - sA * sB) (PB : sB ^ 2 + cB ^ 2 = 1) :
    sA / S * 1 + sB / S * d = cB := by
  have key : sA + sB * d = S * cB := by
    linear_combination sB * hc - cB * hs - sA * PB
  have e : sA / S * 1 + sB / S * d = (sA + sB * d) / S := by
    field_simp
  rw [e, key, mul_div_cancel_left₀ _ hS]

theorem trig_split (θ t : ℝ) :
    Real.sin θ = Real.sin ((1 - t) * θ) * Real.cos (t * θ) +
        Real.cos ((1 - t) * θ) * Real.sin (t * θ) ∧
    Real.cos θ = Real.cos ((1 - t) * θ) * Real.cos (t * θ) -
        Real.sin ((1 - t) * θ) * Real.sin (t * θ) := by
  have h : θ = (1 - t) * θ + t * θ := by ring
  constructor
  · conv_lhs => rw [h]
    rw [Real.sin_add]
  · conv_lhs => rw [h]
    rw [Real.cos_add]

theorem regular_sin_pos (d : ℝ) (hS : ¬ Real.sin (Real.arccos d) < 1 / 1000000) :
    0 < Real.sin (Real.arccos d) := by
  have := not_lt.mp hS
  have h : (0 : ℝ) < 1 / 1000000 := by norm_num
  linarith

theorem core_regular_normSq (q1 q2 : MQuaternion ℝ) (d t : ℝ)
    (h1 : q1.normSq = 1) (h2 : q2.normSq = 1) (hd : q1.dot q2 = d)
    (hdl : -1 ≤ d) (hdu : d ≤ 1) (hS : ¬ Real.sin (Real.arccos d) < 1 / 1000000) :
    (slerpCore Real.arccos Real.sin Real.sqrt q1 q2 d t).normSq = 1 := by
  have hne : Real.sin (Real.arccos d) ≠ 0 := (regular_sin_pos d hS).ne.symm
  obtain ⟨hs, hc⟩ := trig_split (Real.arccos d) t
  rw [Real.cos_arccos hdl hdu] at hc
  rw [slerpCore, if_neg hS, normSq_comb, h1, h2, hd]
  exact weights_normSq _ _ _ _ _ _ hne hs hc (Real.sin_sq_add_cos_sq _)
    (Real.sin_sq_add_cos_sq _)

theorem core_regular_dot (q1 q2 : MQuaternion ℝ) (d t : ℝ)
    (h1 : q1.normSq = 1) (hd : q1.dot q2 = d)
    (hdl : -1 ≤ d) (hdu : d ≤ 1) (hS : ¬ Real.sin (Real.arccos d) < 1 / 1000000) :
    q1.dot (slerpCore Real.arccos Real.sin Real.sqrt q1 q2 d t) =
      Real.cos (t * Real.arccos d) := by
  have hne : Real.sin (Real.arccos d) ≠ 0 := (regular_sin_pos d hS).ne.symm
  obtain ⟨hs, hc⟩ := trig_split (Real.arccos d) t
  rw [Real.cos_arccos hdl hdu] at hc
  rw [slerpCore, if_neg hS, dot_comb, h1, hd]
  exact weights_dot _ _ _ _ _ _ hne hs hc (Real.sin_sq_add_cos_sq _)

theorem core_regular_zero (q1 q2 : MQuaternion ℝ) (d : ℝ)
    (hS : ¬ Real.sin (Real.arccos d) < 1 / 1000000) :
    slerpCore Real.arccos Real.sin Real.sqrt q1 q2 d 0 = q1 := by
  have hne : Real.sin (Real.arccos d) ≠ 0 := (regular_sin_pos d hS).ne.symm
  rw [slerpCore, if_neg hS]
  simp [MQuaternion.comb, hne]

theorem core_regular_one (q1 q2 : MQuaternion ℝ) (d : ℝ)
    (hS : ¬ Real.sin (Real.arccos d) < 1 / 1000000) :
    slerpCore Real.arccos Real.sin Real.sqrt q1 q2 d 1 = q2 := by
  have hne : Real.sin (Real.arccos d) ≠ 0 := (regular_sin_pos d hS).ne.symm
  rw [slerpCore, if_neg hS]
  simp [MQuaternion.comb, hne]

/-! ## `slerpQuaternion` over the reals: the fallback branch -/

theorem mix_normSq (q1 q2 : MQuaternion ℝ) (d t : ℝ)
    (h1 : q1.normSq = 1) (h2 : q2.normSq = 1) (hd : q1.dot q2 = d) :
    (q1.mix q2 t).normSq = (1 - t + t * d) ^ 2 + t ^ 2 * (1 - d ^ 2) := by
  rw [mix_eq_comb, normSq_comb, h1, h2, hd]; ring

theorem mix_normSq_ge (q1 q2 : MQuaternion ℝ) (d t : ℝ)
    (h1 : q1.normSq = 1) (h2 : q2.normSq = 1) (hd : q1.dot q2 = d)
    (hd0 : 0 ≤ d) (ht0 : 0 ≤ t) (ht1 : t ≤ 1) :
    1 / 2 ≤ (q1.mix q2 t).normSq := by
  rw [mix_normSq q1 q2 d t h1 h2 hd]
  nlinarith [sq_nonneg (1 - 2 * t), mul_nonneg (mul_nonneg ht0 (sub_nonneg.mpr ht1)) hd0]

theorem mix_len_gt (q1 q2 : MQuaternion ℝ) (d t : ℝ)
    (h1 : q1.normSq = 1) (h2 : q2.normSq = 1) (hd : q1.dot q2 = d)
    (hd0 : 0 ≤ d) (ht0 : 0 ≤ t) (ht1 : t ≤ 1) :
    Real.sqrt (q1.mix q2 t).normSq > 1 / 1000000 := by
  have h := mix_normSq_ge q1 q2 d t h1 h2 hd hd0 ht0 ht1
  apply Real.lt_sqrt_of_sq_lt
  norm_num
  linarith

theorem core_fallback_eq (q1 q2 : MQuaternion ℝ) (d t : ℝ)
    (h1 : q1.normSq = 1) (h2 : q2.normSq = 1) (hd : q1.dot q2 = d)
    (hd0 : 0 ≤ d) (ht0 : 0 ≤ t) (ht1 : t ≤ 1)
    (hS : Real.sin (Real.arccos d) < 1 / 1000000) :
    slerpCore Real.arccos Real.sin Real.sqrt q1 q2 d t =
      (q1.mix q2 t).divide (Real.sqrt (q1.mix q2 t).normSq) := by
  rw [slerpCore, if_pos hS, if_pos (mix_len_gt q1 q2 d t h1 h2 hd hd0 ht0 ht1)]

theorem core_fallback_normSq (q1 q2 : MQuaternion ℝ) (d t : ℝ)
    (h1 : q1.normSq = 1) (h2 : q2.normSq = 1) (hd : q1.dot q2 = d)
    (hd0 : 0 ≤ d) (ht0 : 0 ≤ t) (ht1 : t ≤ 1)
    (hS : Real.sin (Real.arccos d) < 1 / 1000000) :
    (slerpCore Real.arccos Real.sin Real.sqrt q1 q2 d t).normSq = 1 := by
  have h := mix_normSq_ge q1 q2 d t h1 h2 hd hd0 ht0 ht1
  have hN : 0 ≤ (q1.mix q2 t).normSq := by linarith
  rw [core_fallback_eq q1 q2 d t h1 h2 hd hd0 ht0 ht1 hS, normSq_divide,
    Real.mul_self_sqrt hN]
  exact div_self (by linarith)

theorem core_fallback_dot (q1 q2 : MQuaternion ℝ) (d t : ℝ)
    (h1 : q1.normSq = 1) (h2 : q2.normSq = 1) (hd : q1.dot q2 = d)
    (hd0 : 0 ≤ d) (ht0 : 0 ≤ t) (ht1 : t ≤ 1)
    (hS : Real.sin (Real.arccos d) < 1 / 1000000) :
    q1.dot (slerpCore Real.arccos Real.sin Real.sqrt q1 q2 d t) =
      (1 - t + t * d) / Real.sqrt ((1 - t + t * d) ^ 2 + t ^ 2 * (1 - d ^ 2)) := by
  rw [core_fallback_eq q1 q2 d t h1 h2 hd hd0 ht0 ht1 hS, dot_divide,
    mix_normSq q1 q2 d t h1 h2 hd, mix_eq_comb, dot_comb, h1, hd]
  ring_nf

theorem core_fallback_zero (q1 q2 : MQuaternion ℝ) (d : ℝ) (h1 : q1.normSq = 1)
    (hS : Real.sin (Real.arccos d) < 1 / 1000000) :
    slerpCore Real.arccos Real.sin Real.sqrt q1 q2 d 0 = q1 := by
  rw [slerpCore, if_pos hS, mix_zero, h1, Real.sqrt_one, if_pos (by norm_num), divide_one]

theorem core_fallback_one (q1 q2 : MQuaternion ℝ) (d : ℝ) (h2 : q2.normSq = 1)
    (hS : Real.sin (Real.arccos d) < 1 / 1000000) :
    slerpCore Real.arccos Real.sin Real.sqrt q1 q2 d 1 = q2 := by
  rw [slerpCore, if_pos hS, mix_one, h2, Real.sqrt_one, if_pos (by norm_num), divide_one]

theorem core_zero (q1 q2 : MQuaternion ℝ) (d : ℝ) (h1 : q1.normSq = 1) :
    slerpCore Real.arccos Real.sin Real.sqrt q1 q2 d 0 = q1 := by
  by_cases hS : Real.sin (Real.arccos d) < 1 / 1000000
  · exact core_fallback_zero q1 q2 d h1 hS
  · exact core_regular_zero q1 q2 d hS

theorem core_one (q1 q2 : MQuaternion ℝ) (d : ℝ) (h2 : q2.normSq = 1) :
    slerpCore Real.arccos Real.sin Real.sqrt q1 q2 d 1 = q2 := by
  by_cases hS : Real.sin (Real.arccos d) < 1 / 1000000
  · exact core_fallback_one q1 q2 d h2 hS
  · exact core_regular_one q1 q2 d hS

theorem core_normSq (q1 q2 : MQuaternion ℝ) (d t : ℝ)
    (h1 : q1.normSq = 1) (h2 : q2.normSq = 1) (hd : q1.dot q2 = d)
    (hd0 : 0 ≤ d) (ht0 : 0 ≤ t) (ht1 : t ≤ 1) :
    (slerpCore Real.arccos Real.sin Real.sqrt q1 q2 d t).normSq = 1 := by
  have hdu : d ≤ 1 := hd ▸ dot_le_one q1 q2 h1 h2
  by_cases hS : Real.sin (Real.arccos d) < 1 / 1000000
  · exact core_fallback_normSq q1 q2 d t h1 h2 hd hd0 ht0 ht1 hS
  · exact core_regular_normSq q1 q2 d t h1 h2 hd (by linarith) hdu hS

/-! ## `slerpQuaternion` over the reals: monotonicity of the dot product -/

theorem arccos_mem (d : ℝ) (hd0 : 0 ≤ d) :
    0 ≤ Real.arccos d ∧ Real.arccos d ≤ Real.pi / 2 :=
  ⟨Real.arccos_nonneg d, Real.arccos_le_pi_div_two.mpr hd0⟩

theorem nlerp_dot_antitone (d s t : ℝ) (hd0 : 0 ≤ d) (hd1 : d ≤ 1)
    (hs : 0 ≤ s) (hst : s ≤ t) (ht : t ≤ 1) :
    (1 - t + t * d) / Real.sqrt ((1 - t + t * d) ^ 2 + t ^ 2 * (1 - d ^ 2)) ≤
      (1 - s + s * d) / Real.sqrt ((1 - s + s * d) ^ 2 + s ^ 2 * (1 - d ^ 2)) := by
  have ht0 : 0 ≤ t := le_trans hs hst
  have hs1 : s ≤ 1 := le_trans hst ht
  have he : 0 ≤ 1 - d ^ 2 := by nlinarith
  have hat : 0 ≤ 1 - t + t * d := by nlinarith [mul_nonneg ht0 hd0]
  have has : 0 ≤ 1 - s + s * d := by nlinarith [mul_nonneg hs hd0]
  have hNt : 0 < (1 - t + t * d) ^ 2 + t ^ 2 * (1 - d ^ 2) := by
    have : (1 - t + t * d) ^ 2 + t ^ 2 * (1 - d ^ 2) =
        (1 - t) ^ 2 + t ^ 2 + 2 * ((1 - t) * t * d) := by ring
    rw [this]
    nlinarith [sq_nonneg (1 - 2 * t), mul_nonneg (mul_nonneg (sub_nonneg.mpr ht) ht0) hd0]
  have hNs : 0 < (1 - s + s * d) ^ 2 + s ^ 2 * (1 - d ^ 2) := by
    have : (1 - s + s * d) ^ 2 + s ^ 2 * (1 - d ^ 2) =
        (1 - s) ^ 2 + s ^ 2 + 2 * ((1 - s) * s * d) := by ring
    rw [this]
    nlinarith [sq_nonneg (1 - 2 * s), mul_nonneg (mul_nonneg (sub_nonneg.mpr hs1) hs) hd0]
  rw [div_le_div_iff₀ (Real.sqrt_pos.mpr hNt) (Real.sqrt_pos.mpr hNs)]
  apply le_of_sq_le_sq _ (mul_nonneg has (Real.sqrt_nonneg _))
  rw [mul_pow, mul_pow, Real.sq_sqrt hNs.le, Real.sq_sqrt hNt.le]
  have key : (1 - s + s * d) ^ 2 * ((1 - t + t * d) ^ 2 + t ^ 2 * (1 - d ^ 2)) -
      (1 - t + t * d) ^ 2 * ((1 - s + s * d) ^ 2 + s ^ 2 * (1 - d ^ 2)) =
      (1 - d ^ 2) * ((t - s) * ((1 - s + s * d) * t + (1 - t + t * d) * s)) := by ring
  have hnn : 0 ≤ (1 - d ^ 2) * ((t - s) * ((1 - s + s * d) * t + (1 - t + t * d) * s)) :=
    mul_nonneg he (mul_nonneg (sub_nonneg.mpr hst)
      (add_nonneg (mul_nonneg has ht0) (mul_nonneg hat hs)))
  linarith

theorem core_dot_antitone (q1 q2 : MQuaternion ℝ) (d s t : ℝ)
    (h1 : q1.normSq = 1) (h2 : q2.normSq = 1) (hd : q1.dot q2 = d)
    (hd0 : 0 ≤ d) (hs : 0 ≤ s) (hst : s ≤ t) (ht : t ≤ 1) :
    q1.dot (slerpCore Real.arccos Real.sin Real.sqrt q1 q2 d t) ≤
      q1.dot (slerpCore Real.arccos Real.sin Real.sqrt q1 q2 d s) := by
  have hdu : d ≤ 1 := hd ▸ dot_le_one q1 q2 h1 h2
  have ht0 : 0 ≤ t := le_trans hs hst
  have hs1 : s ≤ 1 := le_trans hst ht
  by_cases hS : Real.sin (Real.arccos d) < 1 / 1000000
  · rw [core_fallback_dot q1 q2 d t h1 h2 hd hd0 ht0 ht hS,
      core_fallback_dot q1 q2 d s h1 h2 hd hd0 hs hs1 hS]
    exact nlerp_dot_antitone d s t hd0 hdu hs hst ht
  · rw [core_regular_dot q1 q2 d t h1 hd (by linarith) hdu hS,
      core_regular_dot q1 q2 d s h1 hd (by linarith) hdu hS]
    obtain ⟨hθ0, hθ1⟩ := arccos_mem d hd0
    apply Real.cos_le_cos_of_nonneg_of_le_pi (mul_nonneg hs hθ0)
    · nlinarith [Real.pi_pos, mul_le_mul_of_nonneg_right ht hθ0]
    · exact mul_le_mul_of_nonneg_right hst hθ0

theorem unit_setup (q1 q2 : MQuaternion ℝ) (h1 : q1.normSq = 1) (h2 : q2.normSq = 1) :
    (shorterArc q1 q2).normSq = 1 ∧ q1.dot (shorterArc q1 q2) = clampedDot q1 q2 ∧
    0 ≤ clampedDot q1 q2 ∧ clampedDot q1 q2 ≤ 1 := by
  have e := clampedDot_eq_abs q1 q2 h1 h2
  refine ⟨by rw [normSq_shorterArc, h2], by rw [dot_shorterArc, e], ?_, ?_⟩
  · rw [e]; exact abs_nonneg _
  · rw [e]; exact abs_dot_le_one q1 q2 h1 h2

theorem slerp_normSq (q1 q2 : MQuaternion ℝ) (t : ℝ) (h1 : q1.normSq = 1)
    (h2 : q2.normSq = 1) (ht0 : 0 ≤ t) (ht1 : t ≤ 1) :
    (slerpQuaternion Real.arccos Real.sin Real.sqrt q1 q2 t).normSq = 1 := by
  obtain ⟨ha, hd, hd0, _⟩ := unit_setup q1 q2 h1 h2
  rw [slerpQuaternion_eq_core]
  exact core_normSq q1 _ _ t h1 ha hd hd0 ht0 ht1

theorem slerp_zero (q1 q2 : MQuaternion ℝ) (h1 : q1.normSq = 1) :
    slerpQuaternion Real.arccos Real.sin Real.sqrt q1 q2 0 = q1 := by
  rw [slerpQuaternion_eq_core]
  exact core_zero q1 _ _ h1

theorem slerp_one (q1 q2 : MQuaternion ℝ) (h2 : q2.normSq = 1) :
    slerpQuaternion Real.arccos Real.sin Real.sqrt q1 q2 1 = shorterArc q1 q2 := by
  rw [slerpQuaternion_eq_core]
  exact core_one q1 _ _ (by rw [normSq_shorterArc, h2])

theorem slerp_self (q : MQuaternion ℝ) (t : ℝ) (hq : q.normSq = 1) :
    slerpQuaternion Real.arccos Real.sin Real.sqrt q q t = q := by
  have hdot : q.dot q = 1 := hq
  have ha : shorterArc q q = q := by
    unfold shorterArc
    rw [if_neg (by rw [hdot]; norm_num)]
  have hc : clampedDot q q = 1 := by
    rw [clampedDot_eq_abs q q hq hq, hdot, abs_one]
  have hS : Real.sin (Real.arccos 1) < 1 / 1000000 := by
    rw [Real.arccos_one, Real.sin_zero]; norm_num
  rw [slerpQuaternion_eq_core, ha, hc, slerpCore, if_pos hS, mix_self, hq, Real.sqrt_one,
    if_pos (by norm_num), divide_one]

/-! ## Claims about `slerpQuaternion` and `blendWorldMatrices` -/

/-- C1: for unit rotation quaternions of the previous and the next transform, a slider
value `rawT ≤ -1` makes `blendWorldMatrices` blend to the previous translation,
rotation and scale and return exactly those recomposed; a slider value `rawT ≥ 1`
makes it blend to the next translation and scale with a rotation that is the next
quaternion, or its negation when the dot product of the two quaternions is negative
(the same rotation), and return exactly those recomposed;
`slerpQuaternion(q1, q2, 0)` is `q1` and `slerpQuaternion(q1, q2, 1)` is `q2` or
`-q2`. -/
theorem blend_endpoints (sdk : Sdk ℝ) (prevMatrix nextMatrix : MMatrix ℝ) (rawT : ℝ)
    (hp : (sdk.rotation prevMatrix).normSq = 1) (hn : (sdk.rotation nextMatrix).normSq = 1) :
    (rawT ≤ -1 →
      blendedChannels sdk Real.arccos Real.sin Real.sqrt prevMatrix nextMatrix rawT =
        ⟨sdk.translation MSpace.kWorld prevMatrix, sdk.rotation prevMatrix,
         sdk.getScale MSpace.kWorld prevMatrix⟩ ∧
      blendWorldMatrices sdk Real.arccos Real.sin Real.sqrt prevMatrix nextMatrix rawT =
        sdk.compose MSpace.kWorld (sdk.translation MSpace.kWorld prevMatrix)
          (sdk.rotation prevMatrix) (sdk.getScale MSpace.kWorld prevMatrix)) ∧
    (1 ≤ rawT →
      (blendedChannels sdk Real.arccos Real.sin Real.sqrt prevMatrix nextMatrix rawT).translation
        = sdk.translation MSpace.kWorld nextMatrix ∧
      (blendedChannels sdk Real.arccos Real.sin Real.sqrt prevMatrix nextMatrix rawT).scale
        = sdk.getScale MSpace.kWorld nextMatrix ∧
      ((blendedChannels sdk Real.arccos Real.sin Real.sqrt prevMatrix nextMatrix rawT).rotation
          = sdk.rotation nextMatrix ∨
       (blendedChannels sdk Real.arccos Real.sin Real.sqrt prevMatrix nextMatrix rawT).rotation
          = (sdk.rotation nextMatrix).neg) ∧
      blendedChannels sdk Real.arccos Real.sin Real.sqrt prevMatrix nextMatrix rawT =
        ⟨sdk.translation MSpace.kWorld nextMatrix,
         shorterArc (sdk.rotation prevMatrix) (sdk.rotation nextMatrix),
         sdk.getScale MSpace.kWorld nextMatrix⟩ ∧
      blendWorldMatrices sdk Real.arccos Real.sin Real.sqrt prevMatrix nextMatrix rawT =
        sdk.compose MSpace.kWorld (sdk.translation MSpace.kWorld nextMatrix)
          (shorterArc (sdk.rotation prevMatrix) (sdk.rotation nextMatrix))
          (sdk.getScale MSpace.kWorld nextMatrix) ∧
      (blendWorldMatrices sdk Real.arccos Real.sin Real.sqrt prevMatrix nextMatrix rawT =
          sdk.compose MSpace.kWorld (sdk.translation MSpace.kWorld nextMatrix)
            (sdk.rotation nextMatrix) (sdk.getScale MSpace.kWorld nextMatrix) ∨
       blendWorldMatrices sdk Real.arccos Real.sin Real.sqrt prevMatrix nextMatrix rawT =
          sdk.compose MSpace.kWorld (sdk.translation MSpace.kWorld nextMatrix)
            (sdk.rotation nextMatrix).neg (sdk.getScale MSpace.kWorld nextMatrix)) ∧
      (¬ (sdk.rotation prevMatrix).dot (sdk.rotation nextMatrix) < 0 →
        blendWorldMatrices sdk Real.arccos Real.sin Real.sqrt prevMatrix nextMatrix rawT =
          sdk.compose MSpace.kWorld (sdk.translation MSpace.kWorld nextMatrix)
            (sdk.rotation nextMatrix) (sdk.getScale MSpace.kWorld nextMatrix))) ∧
    slerpQuaternion Real.arccos Real.sin Real.sqrt (sdk.rotation prevMatrix)
      (sdk.rotation nextMatrix) 0 = sdk.rotation prevMatrix ∧
    (slerpQuaternion Real.arccos Real.sin Real.sqrt (sdk.rotation prevMatrix)
        (sdk.rotation nextMatrix) 1 = sdk.rotation nextMatrix ∨
     slerpQuaternion Real.arccos Real.sin Real.sqrt (sdk.rotation prevMatrix)
        (sdk.rotation nextMatrix) 1 = (sdk.rotation nextMatrix).neg) := by
  have h0 := slerp_zero (sdk.rotation prevMatrix) (sdk.rotation nextMatrix) hp
  have h1 := slerp_one (sdk.rotation prevMatrix) (sdk.rotation nextMatrix) hn
  have hc := shorterArc_cases (sdk.rotation prevMatrix) (sdk.rotation nextMatrix)
  refine ⟨fun h => ?_, fun h => ?_, h0, ?_⟩
  · have e : blendedChannels sdk Real.arccos Real.sin Real.sqrt prevMatrix nextMatrix rawT =
        ⟨sdk.translation MSpace.kWorld prevMatrix, sdk.rotation prevMatrix,
         sdk.getScale MSpace.kWorld prevMatrix⟩ := by
      simp only [blendedChannels, blendFactor_of_le rawT h, h0, MVector.add, MVector.sub,
        MVector.scale, mul_zero, add_zero]
    refine ⟨e, ?_⟩
    simp only [blendWorldMatrices, e]
  · have e : blendedChannels sdk Real.arccos Real.sin Real.sqrt prevMatrix nextMatrix rawT =
        ⟨sdk.translation MSpace.kWorld nextMatrix,
         shorterArc (sdk.rotation prevMatrix) (sdk.rotation nextMatrix),
         sdk.getScale MSpace.kWorld nextMatrix⟩ := by
      simp only [blendedChannels, blendFactor_of_ge rawT h, h1, MVector.add, MVector.sub,
        MVector.scale, mul_one, add_sub_cancel]
    have m : blendWorldMatrices sdk Real.arccos Real.sin Real.sqrt prevMatrix nextMatrix
        rawT = sdk.compose MSpace.kWorld (sdk.translation MSpace.kWorld nextMatrix)
          (shorterArc (sdk.rotation prevMatrix) (sdk.rotation nextMatrix))
          (sdk.getScale MSpace.kWorld nextMatrix) := by
      simp only [blendWorldMatrices, e]
    refine ⟨by rw [e], by rw [e], by rw [e]; exact hc, e, m, ?_, fun hpos => ?_⟩
    · rcases hc with hc | hc
      · exact Or.inl (by rw [m, hc])
      · exact Or.inr (by rw [m, hc])
    · rw [m, shorterArc, if_neg hpos]
  · rw [h1]; exact hc

/-- C1 on two matrices read by `rowSdk`: the previous one has the translation
`(0, 0, 0)`, the identity quaternion and the scale `(1, 1, 1)`, the next one the
translation `(10, 0, 0)`, the unit quaternion `(0, 3/5, 0, -4/5)` and the scale
`(2, 2, 2)`. At the slider value `-2` the matrix returned recomposes the previous
channels; at the slider value `2` it recomposes the next channels, with the
quaternion of the shorter arc. -/
theorem blend_endpoints_witness :
    blendWorldMatrices (rowSdk ℝ) Real.arccos Real.sin Real.sqrt
        (channelRows ⟨0, 0, 0⟩ ⟨0, 0, 0, 1⟩ ⟨1, 1, 1⟩)
        (channelRows ⟨10, 0, 0⟩ ⟨0, 3 / 5, 0, -(4 / 5)⟩ ⟨2, 2, 2⟩) (-2) =
      (rowSdk ℝ).compose MSpace.kWorld
        ((rowSdk ℝ).translation MSpace.kWorld (channelRows ⟨0, 0, 0⟩ ⟨0, 0, 0, 1⟩ ⟨1, 1, 1⟩))
        ((rowSdk ℝ).rotation (channelRows ⟨0, 0, 0⟩ ⟨0, 0, 0, 1⟩ ⟨1, 1, 1⟩))
        ((rowSdk ℝ).getScale MSpace.kWorld (channelRows ⟨0, 0, 0⟩ ⟨0, 0, 0, 1⟩ ⟨1, 1, 1⟩)) ∧
    blendWorldMatrices (rowSdk ℝ) Real.arccos Real.sin Real.sqrt
        (channelRows ⟨0, 0, 0⟩ ⟨0, 0, 0, 1⟩ ⟨1, 1, 1⟩)
        (channelRows ⟨10, 0, 0⟩ ⟨0, 3 / 5, 0, -(4 / 5)⟩ ⟨2, 2, 2⟩) 2 =
      (rowSdk ℝ).compose MSpace.kWorld
        ((rowSdk ℝ).translation MSpace.kWorld
          (channelRows ⟨10, 0, 0⟩ ⟨0, 3 / 5, 0, -(4 / 5)⟩ ⟨2, 2, 2⟩))
        (shorterArc
          ((rowSdk ℝ).rotation (channelRows ⟨0, 0, 0⟩ ⟨0, 0, 0, 1⟩ ⟨1, 1, 1⟩))
          ((rowSdk ℝ).rotation (channelRows ⟨10, 0, 0⟩ ⟨0, 3 / 5, 0, -(4 / 5)⟩ ⟨2, 2, 2⟩)))
        ((rowSdk ℝ).getScale MSpace.kWorld
          (channelRows ⟨10, 0, 0⟩ ⟨0, 3 / 5, 0, -(4 / 5)⟩ ⟨2, 2, 2⟩)) :=
  ⟨((blend_endpoints (rowSdk ℝ) (channelRows ⟨0, 0, 0⟩ ⟨0, 0, 0, 1⟩ ⟨1, 1, 1⟩)
      (channelRows ⟨10, 0, 0⟩ ⟨0, 3 / 5, 0, -(4 / 5)⟩ ⟨2, 2, 2⟩) (-2)
      (by norm_num [rowSdk, channelRows, MQuaternion.normSq])
      (by norm_num [rowSdk, channelRows, MQuaternion.normSq])).1 (by norm_num)).2,
   ((blend_endpoints (rowSdk ℝ) (channelRows ⟨0, 0, 0⟩ ⟨0, 0, 0, 1⟩ ⟨1, 1, 1⟩)
      (channelRows ⟨10, 0, 0⟩ ⟨0, 3 / 5, 0, -(4 / 5)⟩ ⟨2, 2, 2⟩) 2
      (by norm_num [rowSdk, channelRows, MQuaternion.normSq])
      (by norm_num [rowSdk, channelRows, MQuaternion.normSq])).2.1
      (by norm_num)).2.2.2.2.1⟩

/-- The matrices returned at the two ends on the same two matrices, entry by entry:
the previous channels at the slider value `-2`, and at `2` the next channels with the
quaternion negated to `(0, -3/5, 0, 4/5)` because the dot product `-4/5` is
negative. -/
theorem endpoint_matrices_by_rows :
    blendWorldMatrices (rowSdk ℝ) Real.arccos Real.sin Real.sqrt
        (channelRows ⟨0, 0, 0⟩ ⟨0, 0, 0, 1⟩ ⟨1, 1, 1⟩)
        (channelRows ⟨10, 0, 0⟩ ⟨0, 3 / 5, 0, -(4 / 5)⟩ ⟨2, 2, 2⟩) (-2) =
      channelRows ⟨0, 0, 0⟩ ⟨0, 0, 0, 1⟩ ⟨1, 1, 1⟩ ∧
    blendWorldMatrices (rowSdk ℝ) Real.arccos Real.sin Real.sqrt
        (channelRows ⟨0, 0, 0⟩ ⟨0, 0, 0, 1⟩ ⟨1, 1, 1⟩)
        (channelRows ⟨10, 0, 0⟩ ⟨0, 3 / 5, 0, -(4 / 5)⟩ ⟨2, 2, 2⟩) 2 =
      channelRows ⟨10, 0, 0⟩ ⟨0, -(3 / 5), 0, 4 / 5⟩ ⟨2, 2, 2⟩ := by
  have hu1 : ((rowSdk ℝ).rotation (channelRows ⟨0, 0, 0⟩ ⟨0, 0, 0, 1⟩ ⟨1, 1, 1⟩)).normSq = 1 := by
    norm_num [rowSdk, channelRows, MQuaternion.normSq]
  have hu2 : ((rowSdk ℝ).rotation
      (channelRows ⟨10, 0, 0⟩ ⟨0, 3 / 5, 0, -(4 / 5)⟩ ⟨2, 2, 2⟩)).normSq = 1 := by
    norm_num [rowSdk, channelRows, MQuaternion.normSq]
  have h0 := slerp_zero _ ((rowSdk ℝ).rotation
    (channelRows ⟨10, 0, 0⟩ ⟨0, 3 / 5, 0, -(4 / 5)⟩ ⟨2, 2, 2⟩)) hu1
  have h1 := slerp_one ((rowSdk ℝ).rotation (channelRows ⟨0, 0, 0⟩ ⟨0, 0, 0, 1⟩ ⟨1, 1, 1⟩))
    _ hu2
  constructor
  · simp only [blendWorldMatrices, blendedChannels, blendFactor_of_le (-2 : ℝ) (by norm_num),
      h0]
    norm_num [rowSdk, channelRows, MVector.add, MVector.sub, MVector.scale, Matrix.vecHead,
      Matrix.vecTail]
  · simp only [blendWorldMatrices, blendedChannels, blendFactor_of_ge (2 : ℝ) (by norm_num),
      h1]
    norm_num [rowSdk, channelRows, MVector.add, MVector.sub, MVector.scale, shorterArc,
      MQuaternion.dot, MQuaternion.neg, Matrix.vecHead, Matrix.vecTail]

/-- C3: blending a transform with itself returns it: for every matrix `M` whose
rotation quaternion is unit and every slider value, the blended translation, rotation
and scale are those of `M` (and those are what is recomposed), and
`slerpQuaternion(q, q, t) = q` for every unit `q` and every `t` in `[0, 1]`. -/
theorem blend_self (sdk : Sdk ℝ) (M : MMatrix ℝ) (rawT : ℝ)
    (hq : (sdk.rotation M).normSq = 1) :
    blendedChannels sdk Real.arccos Real.sin Real.sqrt M M rawT =
      ⟨sdk.translation MSpace.kWorld M, sdk.rotation M, sdk.getScale MSpace.kWorld M⟩ ∧
    blendWorldMatrices sdk Real.arccos Real.sin Real.sqrt M M rawT =
      sdk.compose MSpace.kWorld (sdk.translation MSpace.kWorld M) (sdk.rotation M)
        (sdk.getScale MSpace.kWorld M) ∧
    (∀ (q : MQuaternion ℝ) (t : ℝ), q.normSq = 1 → 0 ≤ t → t ≤ 1 →
      slerpQuaternion Real.arccos Real.sin Real.sqrt q q t = q) := by
  have e : blendedChannels sdk Real.arccos Real.sin Real.sqrt M M rawT =
      ⟨sdk.translation MSpace.kWorld M, sdk.rotation M, sdk.getScale MSpace.kWorld M⟩ := by
    simp only [blendedChannels, slerp_self _ _ hq, MVector.add, MVector.sub, MVector.scale,
      sub_self, zero_mul, add_zero]
  refine ⟨e, ?_, fun q t h _ _ => slerp_self q t h⟩
  simp only [blendWorldMatrices, e]

/-- C3 on the matrix of the translation by `(1, 2, 3)` at the slider value `1/3`. -/
theorem blend_self_witness :
    blendedChannels (axisSdk ℝ) Real.arccos Real.sin Real.sqrt (translationMatrix 1 2 3)
        (translationMatrix 1 2 3) (1 / 3) =
      ⟨(axisSdk ℝ).translation MSpace.kWorld (translationMatrix 1 2 3),
       (axisSdk ℝ).rotation (translationMatrix 1 2 3),
       (axisSdk ℝ).getScale MSpace.kWorld (translationMatrix 1 2 3)⟩ :=
  (blend_self (axisSdk ℝ) (translationMatrix 1 2 3) (1 / 3)
    (by simp [axisSdk, MQuaternion.normSq])).1

/-- C4: when the dot product of `q1` and `q2` is negative, `slerpQuaternion(q1, q2, t)`
equals `slerpQuaternion(q1, -q2, t)`: the second quaternion is negated so that the
shorter arc is taken. It holds for all quaternions and all `t`, in particular for unit
quaternions and `t` in `[0, 1]`. -/
theorem slerp_shorter_arc (acos sin sqrt : α → α) (q1 q2 : MQuaternion α) (t : α)
    (hneg : q1.dot q2 < 0) :
    slerpQuaternion acos sin sqrt q1 q2 t = slerpQuaternion acos sin sqrt q1 q2.neg t ∧
    slerpQuaternion acos sin sqrt q1 q2 t =
      slerpCore acos sin sqrt q1 q2.neg (clampedDot q1 q2.neg) t := by
  have hpos : ¬ q1.dot q2.neg < 0 := by rw [dot_neg]; linarith
  have hpos2 := hpos
  have a1 : shorterArc q1 q2 = q2.neg := by unfold shorterArc; rw [if_pos hneg]
  have a2 : shorterArc q1 q2.neg = q2.neg := by unfold shorterArc; rw [if_neg hpos2]
  have c : clampedDot q1 q2 = clampedDot q1 q2.neg := by
    rw [dot_neg] at hpos
    simp only [clampedDot, if_pos hneg, dot_neg, if_neg hpos]
  rw [slerpQuaternion_eq_core, slerpQuaternion_eq_core, a1, a2, c]
  exact ⟨rfl, rfl⟩

/-- C4 on `q1 = (0,0,0,1)` and `q2 = (0,0,0,-1)` at `t = 1/2` over the rationals. -/
theorem slerp_shorter_arc_witness :
    slerpQuaternion id id id (⟨0, 0, 0, 1⟩ : MQuaternion ℚ) ⟨0, 0, 0, -1⟩ (1 / 2) =
      slerpQuaternion id id id (⟨0, 0, 0, 1⟩ : MQuaternion ℚ)
        (MQuaternion.neg ⟨0, 0, 0, -1⟩) (1 / 2) :=
  (slerp_shorter_arc id id id (⟨0, 0, 0, 1⟩ : MQuaternion ℚ) ⟨0, 0, 0, -1⟩ (1 / 2)
    (by norm_num [MQuaternion.dot])).1

/-- C5: for unit quaternions `q1`, `q2` and `0 ≤ s ≤ t ≤ 1`, the dot product of the
blended quaternion with `q1` is non-increasing in `t`, so the angular distance
`arccos` of that dot product from `q1` at `s` is at most the one at `t`; and in the
regular SLERP branch the dot product equals `cos(t * theta)` with
`theta = acos(|q1 . q2|)`. -/
theorem slerp_angular_distance_monotone (q1 q2 : MQuaternion ℝ) (s t : ℝ)
    (h1 : q1.normSq = 1) (h2 : q2.normSq = 1) (hs : 0 ≤ s) (hst : s ≤ t) (ht : t ≤ 1) :
    q1.dot (slerpQuaternion Real.arccos Real.sin Real.sqrt q1 q2 t) ≤
      q1.dot (slerpQuaternion Real.arccos Real.sin Real.sqrt q1 q2 s) ∧
    Real.arccos (q1.dot (slerpQuaternion Real.arccos Real.sin Real.sqrt q1 q2 s)) ≤
      Real.arccos (q1.dot (slerpQuaternion Real.arccos Real.sin Real.sqrt q1 q2 t)) ∧
    (¬ Real.sin (Real.arccos |q1.dot q2|) < 1 / 1000000 →
      q1.dot (slerpQuaternion Real.arccos Real.sin Real.sqrt q1 q2 t) =
        Real.cos (t * Real.arccos |q1.dot q2|)) := by
  obtain ⟨ha, hd, hd0, hd1⟩ := unit_setup q1 q2 h1 h2
  have ht0 : 0 ≤ t := le_trans hs hst
  have hs1 : s ≤ 1 := le_trans hst ht
  have mono : q1.dot (slerpQuaternion Real.arccos Real.sin Real.sqrt q1 q2 t) ≤
      q1.dot (slerpQuaternion Real.arccos Real.sin Real.sqrt q1 q2 s) := by
    rw [slerpQuaternion_eq_core, slerpQuaternion_eq_core]
    exact core_dot_antitone q1 _ _ s t h1 ha hd hd0 hs hst ht
  have ut := slerp_normSq q1 q2 t h1 h2 ht0 ht
  have us := slerp_normSq q1 q2 s h1 h2 hs hs1
  refine ⟨mono, ?_, fun hS => ?_⟩
  · exact Real.strictAntiOn_arccos.antitoneOn
      ⟨neg_one_le_dot q1 _ h1 ut, dot_le_one q1 _ h1 ut⟩
      ⟨neg_one_le_dot q1 _ h1 us, dot_le_one q1 _ h1 us⟩ mono
  · rw [← clampedDot_eq_abs q1 q2 h1 h2] at hS ⊢
    rw [slerpQuaternion_eq_core]
    exact core_regular_dot q1 _ _ t h1 hd (by linarith) hd1 hS

/-- C5 on the identity quaternion and the quarter turn about Y scaled to the rational
unit quaternion `(0, 3/5, 0, 4/5)`, between `s = 1/4` and `t = 3/4`. -/
theorem slerp_angular_distance_monotone_witness :
    MQuaternion.dot (⟨0, 0, 0, 1⟩ : MQuaternion ℝ)
        (slerpQuaternion Real.arccos Real.sin Real.sqrt ⟨0, 0, 0, 1⟩ ⟨0, 3 / 5, 0, 4 / 5⟩
          (3 / 4)) ≤
      MQuaternion.dot (⟨0, 0, 0, 1⟩ : MQuaternion ℝ)
        (slerpQuaternion Real.arccos Real.sin Real.sqrt ⟨0, 0, 0, 1⟩ ⟨0, 3 / 5, 0, 4 / 5⟩
          (1 / 4)) :=
  (slerp_angular_distance_monotone ⟨0, 0, 0, 1⟩ ⟨0, 3 / 5, 0, 4 / 5⟩ (1 / 4) (3 / 4)
    (by norm_num [MQuaternion.normSq]) (by norm_num [MQuaternion.normSq])
    (by norm_num) (by norm_num) (by norm_num)).1

/-- C6: for unit quaternions `q1`, `q2` and `t` in `[0, 1]` the result of
`slerpQuaternion` is a unit quaternion. In the fallback branch the guard
`len > 1e-6` holds and the result is the interpolated quaternion divided by its
length; in the regular branch it is the SLERP weighted sum. -/
theorem slerp_is_unit (q1 q2 : MQuaternion ℝ) (t : ℝ)
    (h1 : q1.normSq = 1) (h2 : q2.normSq = 1) (ht0 : 0 ≤ t) (ht1 : t ≤ 1) :
    (slerpQuaternion Real.arccos Real.sin Real.sqrt q1 q2 t).normSq = 1 ∧
    (Real.sin (Real.arccos (clampedDot q1 q2)) < 1 / 1000000 →
      Real.sqrt (q1.mix (shorterArc q1 q2) t).normSq > 1 / 1000000 ∧
      slerpQuaternion Real.arccos Real.sin Real.sqrt q1 q2 t =
        (q1.mix (shorterArc q1 q2) t).divide
          (Real.sqrt (q1.mix (shorterArc q1 q2) t).normSq)) ∧
    (¬ Real.sin (Real.arccos (clampedDot q1 q2)) < 1 / 1000000 →
      slerpQuaternion Real.arccos Real.sin Real.sqrt q1 q2 t =
        MQuaternion.comb
          (Real.sin ((1 - t) * Real.arccos (clampedDot q1 q2)) /
            Real.sin (Real.arccos (clampedDot q1 q2)))
          (Real.sin (t * Real.arccos (clampedDot q1 q2)) /
            Real.sin (Real.arccos (clampedDot q1 q2)))
          q1 (shorterArc q1 q2)) := by
  obtain ⟨ha, hd, hd0, _⟩ := unit_setup q1 q2 h1 h2
  refine ⟨slerp_normSq q1 q2 t h1 h2 ht0 ht1, fun hS => ⟨?_, ?_⟩, fun hS => ?_⟩
  · exact mix_len_gt q1 _ _ t h1 ha hd hd0 ht0 ht1
  · rw [slerpQuaternion_eq_core]
    exact core_fallback_eq q1 _ _ t h1 ha hd hd0 ht0 ht1 hS
  · rw [slerpQuaternion_eq_core, slerpCore, if_neg hS]

/-- C6 on the identity quaternion and `(0, 3/5, 0, 4/5)` at `t = 1/3`. -/
theorem slerp_is_unit_witness :
    (slerpQuaternion Real.arccos Real.sin Real.sqrt (⟨0, 0, 0, 1⟩ : MQuaternion ℝ)
      ⟨0, 3 / 5, 0, 4 / 5⟩ (1 / 3)).normSq = 1 :=
  (slerp_is_unit ⟨0, 0, 0, 1⟩ ⟨0, 3 / 5, 0, 4 / 5⟩ (1 / 3)
    (by norm_num [MQuaternion.normSq]) (by norm_num [MQuaternion.normSq])
    (by norm_num) (by norm_num)).1

theorem half_angle_weights (s c S C : ℝ) (hs : s ≠ 0) (hc : c ≠ 0) (hS : S = 2 * s * c)
    (hC : C = 2 * c ^ 2 - 1) : s / S * S = s ∧ s / S + s / S * C = c := by
  have hne : S ≠ 0 := by rw [hS]; exact mul_ne_zero (mul_ne_zero two_ne_zero hs) hc
  constructor
  · field_simp
  · subst hS hC
    field_simp
    ring

/-- C7: with `q1 = (0,0,0,1)` (0 degrees about Y) and
`q2 = (0, sin 45°, 0, cos 45°)` (90 degrees about Y), `slerpQuaternion(q1, q2, 0.5)` is
`(0, sin 22.5°, 0, cos 22.5°)`, the rotation of 45 degrees about Y. -/
theorem slerp_half_of_quarter_turn :
    slerpQuaternion Real.arccos Real.sin Real.sqrt (⟨0, 0, 0, 1⟩ : MQuaternion ℝ)
        ⟨0, Real.sin (Real.pi / 4), 0, Real.cos (Real.pi / 4)⟩ (1 / 2) =
      ⟨0, Real.sin (Real.pi / 8), 0, Real.cos (Real.pi / 8)⟩ := by
  have hc4 : 0 < Real.cos (Real.pi / 4) := by
    rw [Real.cos_pi_div_four]; positivity
  have hs4 : Real.sin (Real.pi / 4) = Real.sqrt 2 / 2 := Real.sin_pi_div_four
  have h2 : (1 : ℝ) < Real.sqrt 2 := by
    rw [Real.lt_sqrt (by norm_num)]; norm_num
  have hdot : MQuaternion.dot (⟨0, 0, 0, 1⟩ : MQuaternion ℝ)
      ⟨0, Real.sin (Real.pi / 4), 0, Real.cos (Real.pi / 4)⟩ = Real.cos (Real.pi / 4) := by
    simp [MQuaternion.dot]
  have hu1 : (⟨0, 0, 0, 1⟩ : MQuaternion ℝ).normSq = 1 := by simp [MQuaternion.normSq]
  have hu2 : (⟨0, Real.sin (Real.pi / 4), 0, Real.cos (Real.pi / 4)⟩ :
      MQuaternion ℝ).normSq = 1 := by
    have := Real.sin_sq_add_cos_sq (Real.pi / 4)
    simp only [MQuaternion.normSq]
    linarith
  have ha : shorterArc (⟨0, 0, 0, 1⟩ : MQuaternion ℝ)
      ⟨0, Real.sin (Real.pi / 4), 0, Real.cos (Real.pi / 4)⟩ =
      ⟨0, Real.sin (Real.pi / 4), 0, Real.cos (Real.pi / 4)⟩ := by
    unfold shorterArc
    rw [if_neg (by rw [hdot]; linarith)]
  have hcd : clampedDot (⟨0, 0, 0, 1⟩ : MQuaternion ℝ)
      ⟨0, Real.sin (Real.pi / 4), 0, Real.cos (Real.pi / 4)⟩ = Real.cos (Real.pi / 4) := by
    rw [clampedDot_eq_abs _ _ hu1 hu2, hdot, abs_of_pos hc4]
  have hθ : Real.arccos (Real.cos (Real.pi / 4)) = Real.pi / 4 :=
    Real.arccos_cos (by positivity) (by linarith [Real.pi_pos])
  have hS : ¬ Real.sin (Real.pi / 4) < 1 / 1000000 := by
    rw [hs4]; linarith
  have hA : (1 - 1 / 2 : ℝ) * (Real.pi / 4) = Real.pi / 8 := by ring
  have hB : (1 / 2 : ℝ) * (Real.pi / 4) = Real.pi / 8 := by ring
  have h8 : Real.pi / 4 = 2 * (Real.pi / 8) := by ring
  have hs8 : 0 < Real.sin (Real.pi / 8) :=
    Real.sin_pos_of_pos_of_lt_pi (by positivity) (by linarith [Real.pi_pos])
  have hc8 : 0 < Real.cos (Real.pi / 8) :=
    Real.cos_pos_of_mem_Ioo ⟨by linarith [Real.pi_pos], by linarith [Real.pi_pos]⟩
  have hsin : Real.sin (Real.pi / 4) = 2 * Real.sin (Real.pi / 8) * Real.cos (Real.pi / 8) := by
    rw [h8, Real.sin_two_mul]
  have hcos : Real.cos (Real.pi / 4) = 2 * Real.cos (Real.pi / 8) ^ 2 - 1 := by
    rw [h8, Real.cos_two_mul]
  rw [slerpQuaternion_eq_core, ha, hcd, slerpCore, hθ, if_neg hS, hA, hB]
  simp only [MQuaternion.comb, MQuaternion.mk.injEq, mul_zero, add_zero, zero_add, mul_one,
    true_and]
  exact half_angle_weights _ _ _ _ hs8.ne.symm hc8.ne.symm hsin hcos

/-! ## Safety of the divisions and of `acos` in `slerpQuaternion` -/

theorem clampedDot_mem (q1 q2 : MQuaternion α) :
    0 ≤ clampedDot q1 q2 ∧ clampedDot q1 q2 ≤ 1 := by
  have habs : (if q1.dot q2 < 0 then -q1.dot q2 else q1.dot q2) = |q1.dot q2| := by
    split_ifs with h
    · rw [abs_of_neg h]
    · rw [abs_of_nonneg (not_lt.mp h)]
  have h0 := abs_nonneg (q1.dot q2)
  simp only [clampedDot, habs]
  by_cases h : |q1.dot q2| > 1
  · rw [if_pos h, if_neg (by norm_num)]
    exact ⟨zero_le_one, le_refl 1⟩
  · rw [if_neg h, if_neg (by linarith)]
    exact ⟨h0, not_lt.mp h⟩

/-- C12: for unit quaternions and `t` in `[0, 1]`, `acos` is called on a value of
`[-1, 1]` (the dot product after the sign correction already lies in `[0, 1]`, and
the clamped value is that dot product); in the regular branch the only divisor,
`sin(theta)`, is at least `1e-6`; and whenever `sin(theta) < 1e-6` the only divisor is
the length of the component-wise interpolation `q1 + (q2' - q1) * t`, which exceeds
`1e-6`, and the result is that interpolation divided by its length, a unit
quaternion, instead of the SLERP weighted sum. -/
theorem slerp_divisions_are_safe (q1 q2 : MQuaternion ℝ) (t : ℝ)
    (h1 : q1.normSq = 1) (h2 : q2.normSq = 1) (ht0 : 0 ≤ t) (ht1 : t ≤ 1) :
    slerpQuaternion Real.arccos Real.sin Real.sqrt q1 q2 t =
      slerpCore Real.arccos Real.sin Real.sqrt q1 (shorterArc q1 q2) (clampedDot q1 q2) t ∧
    (0 ≤ q1.dot (shorterArc q1 q2) ∧ q1.dot (shorterArc q1 q2) ≤ 1) ∧
    clampedDot q1 q2 = q1.dot (shorterArc q1 q2) ∧
    (-1 ≤ clampedDot q1 q2 ∧ clampedDot q1 q2 ≤ 1) ∧
    (¬ Real.sin (Real.arccos (clampedDot q1 q2)) < 1 / 1000000 →
      1 / 1000000 ≤ Real.sin (Real.arccos (clampedDot q1 q2)) ∧
      Real.sin (Real.arccos (clampedDot q1 q2)) ≠ 0 ∧
      slerpQuaternion Real.arccos Real.sin Real.sqrt q1 q2 t =
        MQuaternion.comb
          (Real.sin ((1 - t) * Real.arccos (clampedDot q1 q2)) /
            Real.sin (Real.arccos (clampedDot q1 q2)))
          (Real.sin (t * Real.arccos (clampedDot q1 q2)) /
            Real.sin (Real.arccos (clampedDot q1 q2)))
          q1 (shorterArc q1 q2)) ∧
    (Real.sin (Real.arccos (clampedDot q1 q2)) < 1 / 1000000 →
      Real.sqrt (q1.mix (shorterArc q1 q2) t).normSq > 1 / 1000000 ∧
      slerpQuaternion Real.arccos Real.sin Real.sqrt q1 q2 t =
        (q1.mix (shorterArc q1 q2) t).divide
          (Real.sqrt (q1.mix (shorterArc q1 q2) t).normSq) ∧
      ((q1.mix (shorterArc q1 q2) t).divide
          (Real.sqrt (q1.mix (shorterArc q1 q2) t).normSq)).normSq = 1) := by
  obtain ⟨ha, hd, hd0, hd1⟩ := unit_setup q1 q2 h1 h2
  refine ⟨slerpQuaternion_eq_core _ _ _ q1 q2 t, ⟨by rw [hd]; exact hd0, by rw [hd]; exact hd1⟩,
    hd.symm, ⟨by linarith, hd1⟩, fun hS => ⟨not_lt.mp hS, (regular_sin_pos _ hS).ne.symm, ?_⟩,
    fun hS => ?_⟩
  · rw [slerpQuaternion_eq_core, slerpCore, if_neg hS]
  · have e := core_fallback_eq q1 _ _ t h1 ha hd hd0 ht0 ht1 hS
    refine ⟨mix_len_gt q1 _ _ t h1 ha hd hd0 ht0 ht1, ?_, ?_⟩
    · rw [slerpQuaternion_eq_core]; exact e
    · rw [← e]; exact core_fallback_normSq q1 _ _ t h1 ha hd hd0 ht0 ht1 hS

/-- C12 on the identity quaternion and its negation (dot product `-1`, so the
quaternions are parallel after the sign correction) at `t = 1/2`. -/
theorem slerp_divisions_are_safe_witness :
    -1 ≤ clampedDot (⟨0, 0, 0, 1⟩ : MQuaternion ℝ) ⟨0, 0, 0, -1⟩ ∧
    clampedDot (⟨0, 0, 0, 1⟩ : MQuaternion ℝ) ⟨0, 0, 0, -1⟩ ≤ 1 :=
  (slerp_divisions_are_safe ⟨0, 0, 0, 1⟩ ⟨0, 0, 0, -1⟩ (1 / 2)
    (by norm_num [MQuaternion.normSq]) (by norm_num [MQuaternion.normSq])
    (by norm_num) (by norm_num)).2.2.2.1

/-! ## The parent-inverse matrix -/

theorem getWorldMatrixAt_cons
    (asMatrix : MVector α → MVector α → RotationOrder → MVector α → MMatrix α)
    (object parent : TransformSample α) (rest : List (TransformSample α)) :
    getWorldMatrixAt asMatrix (object :: parent :: rest) =
      localMatrixAt asMatrix object * getWorldMatrixAt asMatrix (parent :: rest) := by
  simp [getWorldMatrixAt]

theorem getWorldMatrixAt_single
    (asMatrix : MVector α → MVector α → RotationOrder → MVector α → MMatrix α)
    (object : TransformSample α) :
    getWorldMatrixAt asMatrix [object] = localMatrixAt asMatrix object := by
  simp [getWorldMatrixAt]

theorem getParentInverseMatrixAt_no_parent
    (asMatrix : MVector α → MVector α → RotationOrder → MVector α → MMatrix α)
    (inverse : MMatrix α → MMatrix α) (object : TransformSample α) :
    getParentInverseMatrixAt asMatrix inverse [object] = 1 := rfl

theorem getParentInverseMatrixAt_top_parent
    (asMatrix : MVector α → MVector α → RotationOrder → MVector α → MMatrix α)
    (inverse : MMatrix α → MMatrix α) (object parent : TransformSample α) :
    getParentInverseMatrixAt asMatrix inverse [object, parent] =
      inverse (getWorldMatrixAt asMatrix [parent]) := by
  simp [getParentInverseMatrixAt, getWorldMatrixAt]

theorem getParentInverseMatrixAt_deep
    (asMatrix : MVector α → MVector α → RotationOrder → MVector α → MMatrix α)
    (inverse : MMatrix α → MMatrix α) (object parent grand : TransformSample α)
    (rest : List (TransformSample α)) :
    getParentInverseMatrixAt asMatrix inverse (object :: parent :: grand :: rest) =
      inverse (getWorldMatrixAt asMatrix (grand :: rest) * localMatrixAt asMatrix parent) := by
  simp [getParentInverseMatrixAt]

theorem rotX_zero : rotX (0 : α) 1 = 1 := by
  ext i j; fin_cases i <;> fin_cases j <;> simp [rotX, Matrix.vecHead, Matrix.vecTail]

theorem rotY_zero : rotY (0 : α) 1 = 1 := by
  ext i j; fin_cases i <;> fin_cases j <;> simp [rotY, Matrix.vecHead, Matrix.vecTail]

theorem rotZ_zero : rotZ (0 : α) 1 = 1 := by
  ext i j; fin_cases i <;> fin_cases j <;> simp [rotZ, Matrix.vecHead, Matrix.vecTail]

theorem scaleMatrix_one : scaleMatrix (1 : α) 1 1 = 1 := by
  ext i j; fin_cases i <;> fin_cases j <;> simp [scaleMatrix, Matrix.vecHead, Matrix.vecTail]

theorem translationMatrix_zero : translationMatrix (0 : α) 0 0 = 1 := by
  ext i j; fin_cases i <;> fin_cases j <;> simp [translationMatrix]

theorem translationMatrix_eq (x y z : α) :
    translationMatrix x y z = !![1, 0, 0, 0; 0, 1, 0, 0; 0, 0, 1, 0; x, y, z, 1] := by
  ext i j; fin_cases i <;> fin_cases j <;>
    simp [translationMatrix, Matrix.vecHead, Matrix.vecTail]

theorem localMatrixAt_rest :
    localMatrixAt (eulerAsMatrix Real.sin Real.cos) (restSample ℝ) = 1 := by
  simp [localMatrixAt, eulerAsMatrix, eulerMatrix, restSample, RotationOrder.ofInt,
    rotX_zero, rotY_zero, rotZ_zero, scaleMatrix_one, translationMatrix_zero]

theorem localMatrixAt_moved :
    localMatrixAt (eulerAsMatrix Real.sin Real.cos) (movedSample ℝ) =
      translationMatrix 1 0 0 := by
  simp [localMatrixAt, eulerAsMatrix, eulerMatrix, movedSample, RotationOrder.ofInt,
    rotX_zero, rotY_zero, rotZ_zero, scaleMatrix_one]

theorem localMatrixAt_scaled :
    localMatrixAt (eulerAsMatrix Real.sin Real.cos) (scaledSample ℝ) =
      scaleMatrix 2 2 2 := by
  simp [localMatrixAt, eulerAsMatrix, eulerMatrix, scaledSample, RotationOrder.ofInt,
    rotX_zero, rotY_zero, rotZ_zero, translationMatrix_zero]

theorem moved_mul_scaled :
    translationMatrix (1 : ℝ) 0 0 * scaleMatrix 2 2 2 =
      !![2, 0, 0, 0; 0, 2, 0, 0; 0, 0, 2, 0; 2, 0, 0, 1] := by
  rw [translationMatrix_eq]
  ext i j; fin_cases i <;> fin_cases j <;>
    simp [scaleMatrix, Matrix.mul_apply, Fin.sum_univ_four, Matrix.vecHead, Matrix.vecTail]

theorem scaled_mul_moved :
    scaleMatrix (2 : ℝ) 2 2 * translationMatrix 1 0 0 =
      !![2, 0, 0, 0; 0, 2, 0, 0; 0, 0, 2, 0; 1, 0, 0, 1] := by
  rw [translationMatrix_eq]
  ext i j; fin_cases i <;> fin_cases j <;>
    simp [scaleMatrix, Matrix.mul_apply, Fin.sum_univ_four, Matrix.vecHead, Matrix.vecTail]

theorem inv_moved_mul_scaled :
    (!![2, 0, 0, 0; 0, 2, 0, 0; 0, 0, 2, 0; 2, 0, 0, 1] : MMatrix ℝ)⁻¹ =
      !![1 / 2, 0, 0, 0; 0, 1 / 2, 0, 0; 0, 0, 1 / 2, 0; -1, 0, 0, 1] := by
  apply Matrix.inv_eq_left_inv
  ext i j; fin_cases i <;> fin_cases j <;>
    simp [Matrix.mul_apply, Fin.sum_univ_four, Matrix.vecHead, Matrix.vecTail]

theorem inv_scaled_mul_moved :
    (!![2, 0, 0, 0; 0, 2, 0, 0; 0, 0, 2, 0; 1, 0, 0, 1] : MMatrix ℝ)⁻¹ =
      !![1 / 2, 0, 0, 0; 0, 1 / 2, 0, 0; 0, 0, 1 / 2, 0; -(1 / 2), 0, 0, 1] := by
  apply Matrix.inv_eq_left_inv
  ext i j; fin_cases i <;> fin_cases j <;>
    simp [Matrix.mul_apply, Fin.sum_univ_four, Matrix.vecHead, Matrix.vecTail]

theorem world_mul_code_inverse :
    (!![2, 0, 0, 0; 0, 2, 0, 0; 0, 0, 2, 0; 2, 0, 0, 1] : MMatrix ℝ) *
      !![1 / 2, 0, 0, 0; 0, 1 / 2, 0, 0; 0, 0, 1 / 2, 0; -(1 / 2), 0, 0, 1] =
      !![1, 0, 0, 0; 0, 1, 0, 0; 0, 0, 1, 0; 1 / 2, 0, 0, 1] := by
  ext i j; fin_cases i <;> fin_cases j <;>
    norm_num [Matrix.mul_apply, Fin.sum_univ_four, Matrix.vecHead, Matrix.vecTail]

/-- The part of C11 that the code satisfies: for a node without parent the matrix is
the identity, and for a node whose parent is a topmost node with an invertible local
matrix it is the inverse of the parent's world matrix, so that the node's world
matrix times it is the node's local matrix. -/
theorem parent_inverse_up_to_depth_two
    (asMatrix : MVector α → MVector α → RotationOrder → MVector α → MMatrix α)
    (object parent : TransformSample α)
    (h : IsUnit (localMatrixAt asMatrix parent).det) :
    getParentInverseMatrixAt asMatrix (fun M => M⁻¹) [object] = 1 ∧
    getParentInverseMatrixAt asMatrix (fun M => M⁻¹) [object, parent] =
      (getWorldMatrixAt asMatrix [parent])⁻¹ ∧
    getWorldMatrixAt asMatrix [object, parent] *
      getParentInverseMatrixAt asMatrix (fun M => M⁻¹) [object, parent] =
        localMatrixAt asMatrix object := by
  refine ⟨rfl, getParentInverseMatrixAt_top_parent asMatrix _ object parent, ?_⟩
  rw [getParentInverseMatrixAt_top_parent, getWorldMatrixAt_cons, getWorldMatrixAt_single]
  exact Matrix.mul_nonsing_inv_cancel_right _ _ h

/-- C11 evaluated on a chain of three nodes: a node at rest whose parent is translated by
`(1, 0, 0)` and whose grandparent is scaled by `(2, 2, 2)`. `getWorldMatrixAt` gives
the parent the world matrix `local * grandparentWorld`, whose inverse has the
translation row `(-1, 0, 0)`; `getParentInverseMatrixAt` inverts
`grandparentWorld * local` and returns the translation row `(-1/2, 0, 0)`. The node's
world matrix times the returned matrix is a translation by `(1/2, 0, 0)`, not the
node's local matrix, which is the identity. -/
theorem parent_inverse_at_depth_three :
    getWorldMatrixAt (eulerAsMatrix Real.sin Real.cos) [movedSample ℝ, scaledSample ℝ] =
      !![2, 0, 0, 0; 0, 2, 0, 0; 0, 0, 2, 0; 2, 0, 0, 1] ∧
    (getWorldMatrixAt (eulerAsMatrix Real.sin Real.cos) [movedSample ℝ, scaledSample ℝ])⁻¹ =
      !![1 / 2, 0, 0, 0; 0, 1 / 2, 0, 0; 0, 0, 1 / 2, 0; -1, 0, 0, 1] ∧
    getParentInverseMatrixAt (eulerAsMatrix Real.sin Real.cos) (fun M => M⁻¹)
        [restSample ℝ, movedSample ℝ, scaledSample ℝ] =
      !![1 / 2, 0, 0, 0; 0, 1 / 2, 0, 0; 0, 0, 1 / 2, 0; -(1 / 2), 0, 0, 1] ∧
    getWorldMatrixAt (eulerAsMatrix Real.sin Real.cos)
        [restSample ℝ, movedSample ℝ, scaledSample ℝ] *
      getParentInverseMatrixAt (eulerAsMatrix Real.sin Real.cos) (fun M => M⁻¹)
        [restSample ℝ, movedSample ℝ, scaledSample ℝ] =
      !![1, 0, 0, 0; 0, 1, 0, 0; 0, 0, 1, 0; 1 / 2, 0, 0, 1] ∧
    localMatrixAt (eulerAsMatrix Real.sin Real.cos) (restSample ℝ) = 1 ∧
    getParentInverseMatrixAt (eulerAsMatrix Real.sin Real.cos) (fun M => M⁻¹)
        [restSample ℝ, movedSample ℝ, scaledSample ℝ] ≠
      (getWorldMatrixAt (eulerAsMatrix Real.sin Real.cos) [movedSample ℝ, scaledSample ℝ])⁻¹ ∧
    getWorldMatrixAt (eulerAsMatrix Real.sin Real.cos)
        [restSample ℝ, movedSample ℝ, scaledSample ℝ] *
      getParentInverseMatrixAt (eulerAsMatrix Real.sin Real.cos) (fun M => M⁻¹)
        [restSample ℝ, movedSample ℝ, scaledSample ℝ] ≠
      localMatrixAt (eulerAsMatrix Real.sin Real.cos) (restSample ℝ) := by
  have hw : getWorldMatrixAt (eulerAsMatrix Real.sin Real.cos)
      [movedSample ℝ, scaledSample ℝ] =
      !![2, 0, 0, 0; 0, 2, 0, 0; 0, 0, 2, 0; 2, 0, 0, 1] := by
    rw [getWorldMatrixAt_cons, getWorldMatrixAt_single, localMatrixAt_moved,
      localMatrixAt_scaled, moved_mul_scaled]
  have hw3 : getWorldMatrixAt (eulerAsMatrix Real.sin Real.cos)
      [restSample ℝ, movedSample ℝ, scaledSample ℝ] =
      !![2, 0, 0, 0; 0, 2, 0, 0; 0, 0, 2, 0; 2, 0, 0, 1] := by
    rw [getWorldMatrixAt_cons, localMatrixAt_rest, one_mul, hw]
  have hp : getParentInverseMatrixAt (eulerAsMatrix Real.sin Real.cos) (fun M => M⁻¹)
      [restSample ℝ, movedSample ℝ, scaledSample ℝ] =
      !![1 / 2, 0, 0, 0; 0, 1 / 2, 0, 0; 0, 0, 1 / 2, 0; -(1 / 2), 0, 0, 1] := by
    rw [getParentInverseMatrixAt_deep, getWorldMatrixAt_single, localMatrixAt_moved,
      localMatrixAt_scaled, scaled_mul_moved, inv_scaled_mul_moved]
  refine ⟨hw, by rw [hw, inv_moved_mul_scaled], hp, by rw [hw3, hp, world_mul_code_inverse],
    localMatrixAt_rest, ?_, ?_⟩
  · rw [hp, hw, inv_moved_mul_scaled]
    intro h
    have := congrFun (congrFun h 3) 0
    norm_num [Matrix.vecHead, Matrix.vecTail] at this
  · rw [hw3, hp, world_mul_code_inverse, localMatrixAt_rest]
    intro h
    have := congrFun (congrFun h 3) 0
    rw [Matrix.one_apply_ne (by decide)] at this
    norm_num [Matrix.vecHead, Matrix.vecTail] at this

/-! ## The rotation order of the extracted Euler angles -/

theorem quarter_X_mul_Z :
    rotX (1 : ℝ) 0 * rotZ 1 0 = !![0, 1, 0, 0; 0, 0, 1, 0; 1, 0, 0, 0; 0, 0, 0, 1] := by
  ext i j; fin_cases i <;> fin_cases j <;>
    simp [rotX, rotZ, Matrix.mul_apply, Fin.sum_univ_four, Matrix.vecHead, Matrix.vecTail]

theorem quarter_Y_mul_X :
    rotY (1 : ℝ) 0 * rotX 1 0 = !![0, 1, 0, 0; 0, 0, 1, 0; 1, 0, 0, 0; 0, 0, 0, 1] := by
  ext i j; fin_cases i <;> fin_cases j <;>
    simp [rotX, rotY, Matrix.mul_apply, Fin.sum_univ_four, Matrix.vecHead, Matrix.vecTail]

theorem world_xyzSample :
    getWorldMatrixAt (eulerAsMatrix Real.sin Real.cos) [xyzSample (Real.pi / 2)] =
      !![0, 1, 0, 0; 0, 0, 1, 0; 1, 0, 0, 0; 0, 0, 0, 1] := by
  rw [getWorldMatrixAt_single]
  simp only [localMatrixAt, eulerAsMatrix, eulerMatrix, xyzSample, RotationOrder.ofInt,
    Real.sin_pi_div_two, Real.cos_pi_div_two, Real.sin_zero, Real.cos_zero, rotY_zero,
    scaleMatrix_one, translationMatrix_zero, one_mul, mul_one, zero_add, if_true]
  exact quarter_X_mul_Z

theorem world_yzxSample :
    getWorldMatrixAt (eulerAsMatrix Real.sin Real.cos) [yzxSample (Real.pi / 2)] =
      !![0, 1, 0, 0; 0, 0, 1, 0; 1, 0, 0, 0; 0, 0, 0, 1] := by
  rw [getWorldMatrixAt_single]
  have h2 : ((1 : Int) + 1 = 1) = False := by decide
  simp only [localMatrixAt, eulerAsMatrix, eulerMatrix, yzxSample, RotationOrder.ofInt,
    Real.sin_pi_div_two, Real.cos_pi_div_two, Real.sin_zero, Real.cos_zero, rotZ_zero,
    scaleMatrix_one, translationMatrix_zero, one_mul, mul_one, h2, if_false, if_true,
    show ((1 : Int) + 1 = 2) = True from by decide]
  exact quarter_Y_mul_X

/-- C13 evaluated on two nodes without parent that differ in rotate order: one with
order `xyz` and plugs `(90°, 0°, 90°)`, one with order `yzx` and plugs
`(90°, 90°, 0°)`. `getWorldMatrixAt` builds the same matrix for both, so for every
SDK `worldMatrixToLocalTransform` returns the same Euler angles for both: the
extraction receives the matrix alone and no rotation order, and it cannot return
each node's own `rotateY`. -/
theorem euler_extraction_ignores_rotate_order :
    (xyzSample (Real.pi / 2)).rotateOrder = 0 ∧ (yzxSample (Real.pi / 2)).rotateOrder = 1 ∧
    getWorldMatrixAt (eulerAsMatrix Real.sin Real.cos) [xyzSample (Real.pi / 2)] =
      getWorldMatrixAt (eulerAsMatrix Real.sin Real.cos) [yzxSample (Real.pi / 2)] ∧
    (∀ sdk : Sdk ℝ,
      worldMatrixToLocalTransform sdk
        (getWorldMatrixAt (eulerAsMatrix Real.sin Real.cos) [xyzSample (Real.pi / 2)])
        (getParentInverseMatrixAt (eulerAsMatrix Real.sin Real.cos) (fun M => M⁻¹)
          [xyzSample (Real.pi / 2)]) =
      worldMatrixToLocalTransform sdk
        (getWorldMatrixAt (eulerAsMatrix Real.sin Real.cos) [yzxSample (Real.pi / 2)])
        (getParentInverseMatrixAt (eulerAsMatrix Real.sin Real.cos) (fun M => M⁻¹)
          [yzxSample (Real.pi / 2)])) ∧
    (xyzSample (Real.pi / 2)).rotateY ≠ (yzxSample (Real.pi / 2)).rotateY ∧
    (∀ sdk : Sdk ℝ,
      ¬ ((worldMatrixToLocalTransform sdk
            (getWorldMatrixAt (eulerAsMatrix Real.sin Real.cos) [xyzSample (Real.pi / 2)])
            (getParentInverseMatrixAt (eulerAsMatrix Real.sin Real.cos) (fun M => M⁻¹)
              [xyzSample (Real.pi / 2)])).ry = (xyzSample (Real.pi / 2)).rotateY ∧
         (worldMatrixToLocalTransform sdk
            (getWorldMatrixAt (eulerAsMatrix Real.sin Real.cos) [yzxSample (Real.pi / 2)])
            (getParentInverseMatrixAt (eulerAsMatrix Real.sin Real.cos) (fun M => M⁻¹)
              [yzxSample (Real.pi / 2)])).ry = (yzxSample (Real.pi / 2)).rotateY)) := by
  have hne : (xyzSample (Real.pi / 2)).rotateY ≠ (yzxSample (Real.pi / 2)).rotateY := by
    simp only [xyzSample, yzxSample]
    exact (div_pos Real.pi_pos two_pos).ne
  have hsame : ∀ sdk : Sdk ℝ,
      worldMatrixToLocalTransform sdk
        (getWorldMatrixAt (eulerAsMatrix Real.sin Real.cos) [xyzSample (Real.pi / 2)])
        (getParentInverseMatrixAt (eulerAsMatrix Real.sin Real.cos) (fun M => M⁻¹)
          [xyzSample (Real.pi / 2)]) =
      worldMatrixToLocalTransform sdk
        (getWorldMatrixAt (eulerAsMatrix Real.sin Real.cos) [yzxSample (Real.pi / 2)])
        (getParentInverseMatrixAt (eulerAsMatrix Real.sin Real.cos) (fun M => M⁻¹)
          [yzxSample (Real.pi / 2)]) := by
    intro sdk
    rw [world_xyzSample, world_yzxSample, getParentInverseMatrixAt_no_parent,
      getParentInverseMatrixAt_no_parent]
  refine ⟨rfl, rfl, by rw [world_xyzSample, world_yzxSample], hsame, hne, fun sdk h => ?_⟩
  rw [hsame sdk] at h
  exact hne (h.1.symm.trans h.2)

end BlendToWorldSpace

namespace TempPivot

open BlendToWorldSpace

variable {α : Type} [LinearOrderedField α]

/-! ## The matrix of an object relative to the pivot -/

theorem translation_mul_translation (a b c x y z : α) :
    translationMatrix a b c * translationMatrix x y z =
      translationMatrix (a + x) (b + y) (c + z) := by
  ext i j; fin_cases i <;> fin_cases j <;>
    simp [translationMatrix, Matrix.mul_apply, Fin.sum_univ_four]

theorem isUnit_det_translationMatrix (x y z : α) :
    IsUnit (translationMatrix x y z).det := by
  apply Matrix.isUnit_det_of_left_inverse (B := translationMatrix (-x) (-y) (-z))
  rw [translation_mul_translation]
  simp [translationMatrix_zero]

/-- C14: for an invertible pivot world matrix `P`, the matrices that
`applyTransformations` computes right after `updateRelativeMatrices`, in the same
scene, are the world matrices `A` of the objects (`relativeMatrix = A * P⁻¹` and
`newWorldMatrix = relativeMatrix * P = A`); in a scene where the pivot has the world
matrix `P'` they are `A * P⁻¹ * P'`, and when `P'` is invertible the new world matrix
times `P'⁻¹` is again the relative matrix `A * P⁻¹`. -/
theorem relative_matrix_is_preserved (inclusiveMatrix inclusiveMatrix' : MDagPath → MMatrix α)
    (pivotTransform : MDagPath) (objectsInfo : List (ObjectInfo α))
    (hP : IsUnit (inclusiveMatrix pivotTransform).det) :
    updateRelativeMatrices (fun M => M⁻¹) inclusiveMatrix pivotTransform objectsInfo =
      objectsInfo.map (fun o =>
        ⟨o.object, inclusiveMatrix o.object * (inclusiveMatrix pivotTransform)⁻¹⟩) ∧
    applyTransformations inclusiveMatrix pivotTransform
        (updateRelativeMatrices (fun M => M⁻¹) inclusiveMatrix pivotTransform objectsInfo) =
      objectsInfo.map (fun o => (o.object, inclusiveMatrix o.object)) ∧
    applyTransformations inclusiveMatrix' pivotTransform
        (updateRelativeMatrices (fun M => M⁻¹) inclusiveMatrix pivotTransform objectsInfo) =
      objectsInfo.map (fun o =>
        (o.object, inclusiveMatrix o.object * (inclusiveMatrix pivotTransform)⁻¹ *
          inclusiveMatrix' pivotTransform)) ∧
    (IsUnit (inclusiveMatrix' pivotTransform).det →
      ∀ o ∈ objectsInfo,
        inclusiveMatrix o.object * (inclusiveMatrix pivotTransform)⁻¹ *
            inclusiveMatrix' pivotTransform * (inclusiveMatrix' pivotTransform)⁻¹ =
          inclusiveMatrix o.object * (inclusiveMatrix pivotTransform)⁻¹) := by
  refine ⟨?_, ?_, ?_, fun hP' o _ => ?_⟩
  · simp [updateRelativeMatrices]
  · simp only [applyTransformations, updateRelativeMatrices, List.map_map]
    apply List.map_congr_left
    intro o _
    simp only [Function.comp_apply, Matrix.nonsing_inv_mul_cancel_right _ _ hP]
  · simp only [applyTransformations, updateRelativeMatrices, List.map_map]
    rfl
  · exact Matrix.mul_nonsing_inv_cancel_right _ _ hP'

/-- C14 in the scene `sampleScene` with one object `cube`: the pivot is translated by
`(1, 2, 3)`, the object by `(5, 0, 0)`, and the matrix computed for the object is its
own world matrix. -/
theorem relative_matrix_is_preserved_witness :
    applyTransformations (sampleScene ℚ) ["tempPivot"]
        (updateRelativeMatrices (fun M => M⁻¹) (sampleScene ℚ) ["tempPivot"]
          [⟨["cube"], 1⟩]) =
      [(⟨["cube"], 1⟩ : ObjectInfo ℚ)].map (fun o => (o.object, sampleScene ℚ o.object)) :=
  (relative_matrix_is_preserved (sampleScene ℚ) (sampleScene ℚ) ["tempPivot"]
    [⟨["cube"], 1⟩]
    (by simpa [sampleScene] using isUnit_det_translationMatrix (1 : ℚ) 2 3)).2.1

/-! ## `toggle` with nothing selected -/

omit [LinearOrderedField α] in
theorem cleanUp_result (host : Host α) (s : State α) :
    (cleanUp host s).enableState = false ∧ (cleanUp host s).objectsInfo = [] ∧
    (cleanUp host s).callbackIds = [] ∧ (cleanUp host s).AttributeChangedCallbackId = 0 ∧
    (cleanUp host s).pivotNodeExists = false := by
  unfold cleanUp deleteTempPivotNode removeCallbacks removeAttributeChangedCallback
  by_cases h : s.pivotNodeExists = true
  · simp [h]
  · simp [h]

theorem toggle_disabled_empty (host : Host α) (s : State α)
    (hd : s.enableState = false) (hsel : host.activeSelection = []) :
    toggle host s =
      { s with
        enableState := true
        hostCalls := s.hostCalls ++ [HostCall.inViewMessage "Select One or More Objects"] } := by
  simp [toggle, create, getActiveSelection, hd, hsel]

theorem toggle_enabled (host : Host α) (s : State α) (he : s.enableState = true) :
    toggle host s = cleanUp host { s with enableState := false } := by
  simp [toggle, he]

/-- The other path of `create`, for comparison: with the transform `cube` selected,
`toggle` on the disabled state records the object, creates the pivot node and
registers the callbacks. -/
theorem toggle_with_selection_creates_pivot :
    (toggle (cubeHost ℚ) (disabledState ℚ)).enableState = true ∧
    (toggle (cubeHost ℚ) (disabledState ℚ)).objectsInfo.map (fun o => o.object) = [["cube"]] ∧
    (toggle (cubeHost ℚ) (disabledState ℚ)).pivotNodeExists = true ∧
    (toggle (cubeHost ℚ) (disabledState ℚ)).callbackIds =
      ["timeChange", "animCurveEdited", "PreFileNewOrOpened", "kActiveListModified"] ∧
    (toggle (cubeHost ℚ) (disabledState ℚ)).AttributeChangedCallbackId = 1 := by
  simp [toggle, create, getActiveSelection, setupSelectionConnection, createTempPivotNode,
    deleteTempPivotNode, updateTempPosition, updateRelativeMatrices,
    removeAttributeChangedCallback, addAttributeChangedCallback, addCallbacks, ctxEditMode,
    cubeHost, disabledState]

/-- C15: when `toggle` is called on a disabled tool while nothing is selected,
`getActiveSelection` fails and `create` returns at once: the state is the old one with
`enableState` set and one in-view message issued, so no pivot node is created and no
callback is registered, and `objectsInfo` is as before (empty when it was empty).
After every `cleanUp` the tool is disabled, `objectsInfo` and the callbacks are empty
and there is no pivot node. Hence after `cleanUp` followed by such a `toggle` the tool
is enabled without a pivot, and the next `toggle` runs `cleanUp`. -/
theorem toggle_without_selection_leaves_tool_enabled (host : Host α) (s : State α)
    (hd : s.enableState = false) (hsel : host.activeSelection = []) :
    (getActiveSelection host { s with enableState := true }).1 = false ∧
    toggle host s =
      { s with
        enableState := true
        hostCalls := s.hostCalls ++ [HostCall.inViewMessage "Select One or More Objects"] } ∧
    ((toggle host s).enableState = true ∧ (toggle host s).objectsInfo = s.objectsInfo ∧
      (toggle host s).callbackIds = s.callbackIds ∧
      (toggle host s).AttributeChangedCallbackId = s.AttributeChangedCallbackId ∧
      (toggle host s).pivotNodeExists = s.pivotNodeExists ∧
      (toggle host s).pivotTransform = s.pivotTransform) ∧
    (s.objectsInfo = [] → (toggle host s).objectsInfo = []) ∧
    (∀ (host' : Host α) (s' : State α),
      (cleanUp host' s').enableState = false ∧ (cleanUp host' s').objectsInfo = [] ∧
      (cleanUp host' s').callbackIds = [] ∧
      (cleanUp host' s').AttributeChangedCallbackId = 0 ∧
      (cleanUp host' s').pivotNodeExists = false) ∧
    (∀ (host' : Host α) (s' : State α),
      (toggle host (cleanUp host' s')).enableState = true ∧
      (toggle host (cleanUp host' s')).objectsInfo = [] ∧
      (toggle host (cleanUp host' s')).callbackIds = [] ∧
      (toggle host (cleanUp host' s')).AttributeChangedCallbackId = 0 ∧
      (toggle host (cleanUp host' s')).pivotNodeExists = false) ∧
    (∀ host' : Host α,
      toggle host' (toggle host s) =
        cleanUp host' { toggle host s with enableState := false } ∧
      (toggle host' (toggle host s)).enableState = false) := by
  have e := toggle_disabled_empty host s hd hsel
  refine ⟨by simp [getActiveSelection, hsel], e, by simp [e], fun h => by simp [e, h],
    cleanUp_result, fun host' s' => ?_, fun host' => ?_⟩
  · obtain ⟨c1, c2, c3, c4, c5⟩ := cleanUp_result host' s'
    rw [toggle_disabled_empty host _ c1 hsel]
    exact ⟨rfl, c2, c3, c4, c5⟩
  · have he : (toggle host s).enableState = true := by simp [e]
    rw [toggle_enabled host' _ he]
    exact ⟨rfl, (cleanUp_result host' _).1⟩

/-- C15 on the disabled state with nothing selected: the tool ends enabled with no
object, no callback and no pivot node. -/
theorem toggle_without_selection_leaves_tool_enabled_witness :
    (toggle (idleHost ℚ) (disabledState ℚ)).enableState = true ∧
    (toggle (idleHost ℚ) (disabledState ℚ)).objectsInfo = (disabledState ℚ).objectsInfo ∧
    (toggle (idleHost ℚ) (disabledState ℚ)).callbackIds = (disabledState ℚ).callbackIds ∧
    (toggle (idleHost ℚ) (disabledState ℚ)).AttributeChangedCallbackId =
      (disabledState ℚ).AttributeChangedCallbackId ∧
    (toggle (idleHost ℚ) (disabledState ℚ)).pivotNodeExists =
      (disabledState ℚ).pivotNodeExists ∧
    (toggle (idleHost ℚ) (disabledState ℚ)).pivotTransform =
      (disabledState ℚ).pivotTransform :=
  (toggle_without_selection_leaves_tool_enabled (idleHost ℚ) (disabledState ℚ) rfl rfl).2.2.1

end TempPivot
